import Mathlib

/-!
# filegrain: blob cacher (`puller/cacher.go`) and lazy file read (`lazyfs/lazyfile.go`)

A shallow embedding of the two Go source files.

* Go `error` values are `Option Error` (`none` is `nil`); `(T, error)` results are `Except Error T`.
* The Go map `pullStatus` is a function `Digest → Option pullStatus` (`none`: key absent).
* `uint64` counters are naturals reduced modulo `2 ^ 64` after every addition.
* The behaviour of external collaborators during one call (the upstream puller, storage
  faults) is an explicit `Env` argument.
* `cacheBlobIfNotYet` loops; the loop carries a fuel argument and returns `none` when the
  fuel runs out before the loop exits.
* Concurrent callers are a list of program counters over a shared `World`; one step of the
  machine is one lock-protected section (or one unlocked section) of one caller.
-/

/-- One byte of blob content. -/
abbrev Byte := Fin 256

namespace digest

/-- The go-digest value `algorithm:hex`, kept in parsed form. Only well-formed digests are
represented; `digest.Digest(s)` in the source is a cast of such a string. -/
structure Digest where
  algo : String
  hex : String
deriving DecidableEq, Repr

/-- Go `d.Algorithm()`: the part of the digest before the separator. -/
def Digest.Algorithm (d : Digest) : String := d.algo

end digest

open digest

/-- The hash function table: algorithm name and content to hex-encoded hash. It is a
parameter of the development. -/
abbrev Hasher := String → List Byte → String

/-- Go `error` values that flow through the two files. -/
inductive Error where
  /-- an error produced by a collaborator (network, storage) -/
  | fault (msg : String)
  /-- Go `fmt.Errorf("expected %q, got %q", d, dd)` (cacher.go:105) -/
  | mismatch (expected : Digest) (got : Option Digest)
  /-- open of a digest under which no blob is published -/
  | notFound (d : Digest)
  /-- read at or past the end of the content -/
  | EOF
  /-- seek to a negative position or with an unknown whence -/
  | invalidSeek
deriving DecidableEq, Repr

/-- The stream returned by the upstream puller, as `io.Copy` and `Close` consume it. -/
structure ReadCloser where
  /-- bytes delivered before the stream ends -/
  data : List Byte
  /-- Holds `some e` when the stream ends with an error other than end-of-data -/
  readErr : Option Error
  /-- result of `r.Close()` -/
  closeErr : Option Error
deriving DecidableEq, Repr

/-- What the collaborators do during one call of `cacheBlob`. -/
structure Env where
  /-- result of `p.puller.PullBlob(img, d)` -/
  pull : Except Error ReadCloser
  /-- storage fault hitting `image.NewBlobWriter` -/
  newWriter : Option Error
  /-- storage fault hitting the writer during `io.Copy` -/
  write : Option Error
  /-- storage fault hitting `w.Close()` -/
  wClose : Option Error

namespace image

/-- Modelled from the spec: the published blobs of the Blob Store (package `image`, not among
the source files), one content per digest under the root directory. -/
abbrev Blobs := Digest → Option (List Byte)

/-- Modelled from the spec: publishing the content `c` under the path of digest `k`, which
replaces what was there. -/
def Blobs.publish (b : Blobs) (k : Digest) (c : List Byte) : Blobs :=
  fun x => if x = k then some c else b x

/-- Modelled from the spec: `image.BlobWriter`, a streaming writer into a private staging
location that computes the digest of what was written and exposes it once closed. -/
structure BlobWriter where
  algo : String
  written : List Byte
  digest : Option Digest
deriving DecidableEq, Repr

/-- Modelled from the spec: `image.NewBlobWriter(cachePath, algo)`, `createWriter(algorithm)`
of the Blob Store; fails only on a storage fault. -/
def NewBlobWriter (fault : Option Error) (algo : String) : Except Error BlobWriter :=
  match fault with
  | some e => .error e
  | none => .ok { algo := algo, written := [], digest := none }

/-- Modelled from the spec: `BlobWriter.Close`, which finalizes the write and atomically
publishes the blob under the path derived from its computed digest; on a storage fault nothing
is published. -/
def BlobWriter.Close (H : Hasher) (fault : Option Error) (w : BlobWriter) (b : Blobs) :
    Option Error × BlobWriter × Blobs :=
  match fault with
  | some e => (some e, w, b)
  | none =>
    let dd : Digest := { algo := w.algo, hex := H w.algo w.written }
    (none, { w with digest := some dd }, b.publish dd w.written)

/-- Modelled from the spec: `BlobWriter.Digest`, the final computed digest, `nil` before the
writer is closed. -/
def BlobWriter.Digest (w : BlobWriter) : Option Digest := w.digest

/-- Modelled from the spec: `image.BlobReader`, a random-access reader over a published blob
(a file: `io.ReadSeeker` and `io.Closer`). -/
structure BlobReader where
  content : List Byte
  pos : Nat
deriving DecidableEq, Repr

/-- Modelled from the spec: `image.GetBlobReader(cachePath, d)`, `open(digest)` of the Blob
Store: not-found when nothing is published under `d`, else a reader at position 0. -/
def GetBlobReader (b : Blobs) (d : Digest) : Except Error BlobReader :=
  match b d with
  | none => .error (Error.notFound d)
  | some c => .ok { content := c, pos := 0 }

/-- Modelled from the spec: `Seek(offset, whence)` of a file-backed reader. Seeking past the
end is allowed; a negative resulting position is an error. -/
def BlobReader.Seek (offset : Int) (whence : Int) (r : BlobReader) : Except Error Int × BlobReader :=
  let base : Option Int :=
    if whence = 0 then some 0
    else if whence = 1 then some (r.pos : Int)
    else if whence = 2 then some (r.content.length : Int)
    else none
  match base with
  | none => (.error Error.invalidSeek, r)
  | some b =>
    if b + offset < 0 then (.error Error.invalidSeek, r)
    else (.ok (b + offset), { r with pos := (b + offset).toNat })

/-- Modelled from the spec: `Read(buf)` of a file-backed reader. Returns the buffer after the
call, the count and the error: a zero-length buffer reads nothing, a read at or past the end
reports end-of-data, otherwise the available bytes (at most `len(buf)`) overwrite the front of
the buffer and the rest of the buffer is left as it was. -/
def BlobReader.Read (buf : List Byte) (r : BlobReader) :
    (List Byte × Nat × Option Error) × BlobReader :=
  if buf.length = 0 then ((buf, 0, none), r)
  else if r.content.length ≤ r.pos then ((buf, 0, some Error.EOF), r)
  else
    let chunk := (r.content.drop r.pos).take buf.length
    ((chunk ++ buf.drop chunk.length, chunk.length, none), { r with pos := r.pos + chunk.length })

/-- Modelled from the spec: `Close()` of a file-backed reader; it does not fail. -/
def BlobReader.Close (_r : BlobReader) : Option Error := none

end image

namespace io

/-- Go `io.Copy(w, r)`: a writer fault aborts the copy, otherwise all of the stream's bytes are
appended to the writer and the stream's own error, if any, is returned. The count returned
with an error is not used by the caller and is left at the number of bytes of the stream. -/
def Copy (writeFault : Option Error) (w : image.BlobWriter) (r : ReadCloser) :
    Nat × Option Error × image.BlobWriter :=
  match writeFault with
  | some e => (0, some e, w)
  | none => (r.data.length, r.readErr, { w with written := w.written ++ r.data })

end io

namespace puller

/-- The Go type `type pullStatus int` with its three constants (cacher.go:18-24). -/
inductive pullStatus where
  | pullStatusUnknown
  | pullStatusPulling
  | pullStatusPulled
deriving DecidableEq, Repr

open pullStatus

/-- The mutable fields of `BlobCacher` (cacher.go:26-35). `cachePath` and `puller` are fixed
at construction: the directory is the `blobs` component of `World`, the upstream puller acts
through `Env`. -/
structure BlobCacher where
  pullStatus : Digest → Option pullStatus
  pulledBlobBytes : Nat
  pulledBlobs : Nat

/-- A call made to a collaborator, recorded in program order. -/
inductive Call where
  /-- Go `p.puller.PullBlob(img, d)` (cacher.go:86) -/
  | PullBlob (img : String) (d : Digest)
  /-- Go `image.NewBlobWriter(p.cachePath, algo)` (cacher.go:90) -/
  | NewBlobWriter (algo : String)
deriving DecidableEq, Repr

/-- The state the cacher's methods act on: the cacher, the blobs published under `cachePath`,
and the log of collaborator calls (a ghost field, read only by theorems). -/
structure World where
  cacher : BlobCacher
  blobs : image.Blobs
  calls : List Call

/-- Go `NewBlobCacher` (cacher.go:37-52): fails when `os.Stat(cachePath)` fails, else an empty
status map and zero counters. -/
def NewBlobCacher (stat : Option Error) : Except Error BlobCacher :=
  match stat with
  | some err => .error err
  | none => .ok { pullStatus := fun _ => none, pulledBlobBytes := 0, pulledBlobs := 0 }

/-- The world right after a successful `NewBlobCacher` over a directory holding `blobs`. -/
def World.init (blobs : image.Blobs) : World :=
  { cacher := { pullStatus := fun _ => none, pulledBlobBytes := 0, pulledBlobs := 0 },
    blobs := blobs, calls := [] }

/-- The map write `p.pullStatus[d] = st` under the lock. -/
def World.setStatus (d : Digest) (st : pullStatus) (w : World) : World :=
  { w with cacher := { w.cacher with
      pullStatus := fun x => if x = d then some st else w.cacher.pullStatus x } }

/-- Lines 83-85 of `cacheBlob`: lock, `p.pullStatus[d] = pullStatusPulling`, unlock. -/
def BlobCacher.setPulling (d : Digest) (w : World) : World :=
  w.setStatus d pullStatusPulling

/-- Lines 86-109 of `cacheBlob`, the part that runs without the lock: pull from the upstream
puller, create the writer, copy, close both, compare digests, add to the counters. -/
def BlobCacher.fetchAndStore (H : Hasher) (env : Env) (img : String) (d : Digest) (w : World) :
    Option Error × World :=
  let w := { w with calls := w.calls ++ [Call.PullBlob img d] }
  match env.pull with
  | .error err => (some err, w)
  | .ok r =>
    let w := { w with calls := w.calls ++ [Call.NewBlobWriter d.Algorithm] }
    match image.NewBlobWriter env.newWriter d.Algorithm with
    | .error err => (some err, w)
    | .ok bw =>
      match io.Copy env.write bw r with
      | (_, some err, _) => (some err, w)
      | (copied, none, bw) =>
        match r.closeErr with
        | some err => (some err, w)
        | none =>
          match bw.Close H env.wClose w.blobs with
          | (some err, _, _) => (some err, w)
          | (none, bw, blobs) =>
            let w := { w with blobs := blobs }
            let dd := bw.Digest
            if dd = none ∨ dd ≠ some d then (some (Error.mismatch d dd), w)
            else
              let totalCopied := (w.cacher.pulledBlobBytes + copied % 2 ^ 64) % 2 ^ 64
              let totalCachedBlobs := (w.cacher.pulledBlobs + 1) % 2 ^ 64
              (none, { w with cacher := { w.cacher with
                  pulledBlobBytes := totalCopied, pulledBlobs := totalCachedBlobs } })

/-- Lines 110-112 of `cacheBlob`: lock, `p.pullStatus[d] = pullStatusPulled`, unlock. The
broadcast of line 113 changes no field of the world; it only wakes parked callers. -/
def BlobCacher.markPulled (d : Digest) (w : World) : World :=
  w.setStatus d pullStatusPulled

/-- Go `BlobCacher.cacheBlob` (cacher.go:81-115). -/
def BlobCacher.cacheBlob (H : Hasher) (env : Env) (img : String) (d : Digest) (w : World) :
    Option Error × World :=
  let w := BlobCacher.setPulling d w
  match BlobCacher.fetchAndStore H env img d w with
  | (some err, w) => (some err, w)
  | (none, w) => (none, BlobCacher.markPulled d w)

/-- Go `BlobCacher.cacheBlobIfNotYet` (cacher.go:61-79), one caller running alone. Each round of
the `for` loop takes one unit of fuel. In the `pullStatusPulling` branch the caller waits on
the condition variable; with no other caller running the map is the same when it re-checks.
`none`: the loop has not exited within the fuel. -/
def BlobCacher.cacheBlobIfNotYet (H : Hasher) (env : Env) (img : String) (d : Digest) :
    Nat → World → Option (Option Error × World)
  | 0, _ => none
  | fuel + 1, w =>
    match w.cacher.pullStatus d with
    | some pullStatusPulling => BlobCacher.cacheBlobIfNotYet H env img d fuel w
    | st =>
      let alreadyCached := decide (st.getD pullStatusUnknown = pullStatusPulled)
      if !alreadyCached then some (BlobCacher.cacheBlob H env img d w)
      else some (none, w)

/-- Go `BlobCacher.openCachedBlob` (cacher.go:117-119). -/
def BlobCacher.openCachedBlob (_img : String) (d : Digest) (w : World) :
    Except Error image.BlobReader :=
  image.GetBlobReader w.blobs d

/-- Go `BlobCacher.PullBlob` (cacher.go:54-59). -/
def BlobCacher.PullBlob (H : Hasher) (env : Env) (img : String) (d : Digest) (fuel : Nat)
    (w : World) : Option (Except Error image.BlobReader × World) :=
  match BlobCacher.cacheBlobIfNotYet H env img d fuel w with
  | none => none
  | some (some err, w) => some (.error err, w)
  | some (none, w) => some (BlobCacher.openCachedBlob img d w, w)

end puller

namespace fuse

/-- Go `fuse.Status`, the errno-style status of go-fuse. -/
abbrev Status := Int

/-- Go `fuse.OK`. -/
def OK : Status := 0

/-- Go `fuse.EIO`, i.e. `Status(syscall.EIO)`. -/
def EIO : Status := 5

/-- Go `fuse.ReadResult` as built by `fuse.ReadResultData`: the bytes handed back. -/
structure ReadResult where
  data : List Byte
deriving DecidableEq, Repr

/-- Go `fuse.ReadResultData(buf)`. -/
def ReadResultData (buf : List Byte) : ReadResult := { data := buf }

end fuse

namespace lazyfs

/-- The `Puller` interface as `file.Read` uses it: `PullBlob(img, d)` acting on a state `σ`
and returning a reader of type `ρ` or an error; `none` when the call does not return. -/
structure Puller (σ ρ : Type) where
  PullBlob : String → Digest → σ → Option (Except Error ρ × σ)

/-- The `image.BlobReader` interface as `file.Read` uses it, for readers of type `ρ`.
`Read buf r` returns the buffer after the call, the count and the error. -/
structure Reader (ρ : Type) where
  Seek : Int → Int → ρ → Except Error Int × ρ
  Read : List Byte → ρ → (List Byte × Nat × Option Error) × ρ
  Close : ρ → Option Error

/-- The fields of `Options` that `file.Read` uses (the type is declared outside the source
files). The reader's method table is kept next to the puller that returns the readers. -/
structure Options (σ ρ : Type) where
  Puller : Puller σ ρ
  BlobReader : Reader ρ
  Image : String

/-- The field of `continuitypb.Resource` that `file.Read` uses. -/
structure Resource where
  Digest : List Digest

/-- The Go type `type file struct` (lazyfile.go:11-15). -/
structure file (σ ρ : Type) where
  opts : Options σ ρ
  res : Resource

/-- Go `file.Read` (lazyfile.go:30-52). `none` when `PullBlob` does not return. The count
returned by `br.Read` is discarded, as in the source; the deferred `br.Close()` of line 50 runs
on the success path only and its result is dropped, so it does not show in the result. -/
def file.Read {σ ρ : Type} (f : file σ ρ) (buf : List Byte) (off : Int) (s : σ) :
    Option ((Option fuse.ReadResult × fuse.Status) × σ) :=
  match f.res.Digest with
  | [] => some ((none, fuse.EIO), s)
  | dgst :: _ =>
    match f.opts.Puller.PullBlob f.opts.Image dgst s with
    | none => none
    | some (.error _, s) => some ((none, fuse.EIO), s)
    | some (.ok br, s) =>
      match f.opts.BlobReader.Seek off 0 br with
      | (.error _, _) => some ((none, fuse.EIO), s)
      | (.ok _, br) =>
        match f.opts.BlobReader.Read buf br with
        | ((_, _, some _), _) => some ((none, fuse.EIO), s)
        | ((buf, _, none), _) => some ((some (fuse.ReadResultData buf), fuse.OK), s)

/-- Holds when `Puller.PullBlob` for the first digest returns an error. -/
def file.pullFails {σ ρ : Type} (f : file σ ρ) (s : σ) : Prop :=
  ∃ d ds e s1, f.res.Digest = d :: ds ∧
    f.opts.Puller.PullBlob f.opts.Image d s = some (.error e, s1)

/-- Holds when `PullBlob` returns a reader and the reader's `Seek(off, 0)` returns an error. -/
def file.seekFails {σ ρ : Type} (f : file σ ρ) (off : Int) (s : σ) : Prop :=
  ∃ d ds br s1 e br1, f.res.Digest = d :: ds ∧
    f.opts.Puller.PullBlob f.opts.Image d s = some (.ok br, s1) ∧
    f.opts.BlobReader.Seek off 0 br = (.error e, br1)

/-- Holds when `PullBlob` and `Seek` succeed and the reader's `Read(buf)` returns an error. -/
def file.readFails {σ ρ : Type} (f : file σ ρ) (buf : List Byte) (off : Int) (s : σ) : Prop :=
  ∃ d ds br s1 n br1 b k e br2, f.res.Digest = d :: ds ∧
    f.opts.Puller.PullBlob f.opts.Image d s = some (.ok br, s1) ∧
    f.opts.BlobReader.Seek off 0 br = (.ok n, br1) ∧
    f.opts.BlobReader.Read buf br1 = ((b, k, some e), br2)

/-- The method table of the file-backed `image.BlobReader`. -/
def blobReader : Reader image.BlobReader :=
  { Seek := image.BlobReader.Seek, Read := image.BlobReader.Read, Close := image.BlobReader.Close }

/-- A `BlobCacher` used as the `Puller` of a file: `PullBlob` with the given collaborators'
behaviour and loop fuel. -/
def cacherPuller (H : Hasher) (env : Env) (fuel : Nat) : Puller puller.World image.BlobReader :=
  { PullBlob := fun img d w => puller.BlobCacher.PullBlob H env img d fuel w }

/-- A file backed by a `BlobCacher`. -/
def cachedFile (H : Hasher) (env : Env) (fuel : Nat) (img : String) (res : Resource) :
    file puller.World image.BlobReader :=
  { opts := { Puller := cacherPuller H env fuel, BlobReader := blobReader, Image := img },
    res := res }

end lazyfs

namespace puller

open pullStatus

/-- Where a caller of `cacheBlobIfNotYet` stands. Each value is the section of code the
caller runs in its next step. -/
inductive PC where
  /-- cacher.go:64-66 and 70-72: lock, read the status, then park or leave the loop -/
  | check
  /-- inside `p.pullStatusCond.Wait()` (line 67), lock released, waiting for a broadcast -/
  | parked
  /-- woken by a broadcast: `Wait` re-locks and returns, line 68 unlocks, the loop repeats -/
  | woken
  /-- cacher.go:83-85: lock, set `pullStatusPulling`, unlock -/
  | setPulling
  /-- cacher.go:86-109: the unlocked fetch, store and verify -/
  | fetch
  /-- cacher.go:110-112: lock, set `pullStatusPulled`, unlock -/
  | markPulled
  /-- cacher.go:113: `p.pullStatusCond.Broadcast()` -/
  | broadcast
  /-- returned with the given error -/
  | done (r : Option Error)
deriving DecidableEq, Repr

/-- One concurrent call `cacheBlobIfNotYet(img, d)` with the behaviour `env` of the
collaborators for this call. -/
structure Caller where
  img : String
  d : Digest
  env : Env
  pc : PC

/-- A cacher shared by concurrent callers. -/
structure Sys where
  world : World
  callers : List Caller

/-- The `Broadcast` of cacher.go:113: every parked caller is woken. -/
def wakeAll (cs : List Caller) : List Caller :=
  cs.map fun c => match c.pc with
    | PC.parked => { c with pc := PC.woken }
    | _ => c

/-- The next section of code of one caller, run on the shared world. Returns the new world,
the caller's new program counter and whether the section broadcasts. A parked or returned
caller does not move. -/
def Caller.next (H : Hasher) (c : Caller) (w : World) : World × PC × Bool :=
  match c.pc with
  | PC.check =>
    match w.cacher.pullStatus c.d with
    | some pullStatusPulling => (w, PC.parked, false)
    | st =>
      if st.getD pullStatusUnknown = pullStatusPulled then (w, PC.done none, false)
      else (w, PC.setPulling, false)
  | PC.parked => (w, PC.parked, false)
  | PC.woken => (w, PC.check, false)
  | PC.setPulling => (BlobCacher.setPulling c.d w, PC.fetch, false)
  | PC.fetch =>
    match BlobCacher.fetchAndStore H c.env c.img c.d w with
    | (some err, w) => (w, PC.done (some err), false)
    | (none, w) => (w, PC.markPulled, false)
  | PC.markPulled => (BlobCacher.markPulled c.d w, PC.broadcast, false)
  | PC.broadcast => (w, PC.done none, true)
  | PC.done r => (w, PC.done r, false)

/-- One step of the machine: caller number `i` runs its next section. An index past the end
of the list leaves the system as it is. -/
def Sys.step (H : Hasher) (s : Sys) (i : Nat) : Sys :=
  match s.callers[i]? with
  | none => s
  | some c =>
    match c.next H s.world with
    | (w, pc, bc) =>
      let cs := s.callers.set i { c with pc := pc }
      { world := w, callers := if bc then wakeAll cs else cs }

/-- Run a schedule: the list of caller indices in the order in which they step. -/
def Sys.run (H : Hasher) (s : Sys) (sched : List Nat) : Sys :=
  sched.foldl (Sys.step H) s

/-- The system of `n` callers of `cacheBlobIfNotYet(img, d)` about to start on a fresh cacher, all facing the
same behaviour of the collaborators. -/
def Sys.start (blobs : image.Blobs) (img : String) (d : Digest) (env : Env) (n : Nat) : Sys :=
  { world := World.init blobs,
    callers := List.replicate n { img := img, d := d, env := env, pc := PC.check } }

/-- The caller is inside the waiting loop of `cacheBlobIfNotYet` (cacher.go:63-74). -/
def PC.waits (pc : PC) : Prop :=
  pc = PC.check ∨ pc = PC.parked ∨ pc = PC.woken

/-- How many times the upstream `PullBlob` was invoked for `d`. -/
def World.pulls (w : World) (d : Digest) : Nat :=
  (w.calls.filter fun c => match c with
    | Call.PullBlob _ x => decide (x = d)
    | _ => false).length

end puller

/-! ## Closed sample data -/

/-- A sample hash table for closed examples: each byte becomes one letter, so distinct
contents of bytes below 26 get distinct hashes. -/
def sampleHasher : Hasher := fun _ data => String.mk (data.map fun b => Char.ofNat (b.val + 97))

/-- An environment in which the upstream puller delivers `data` and nothing fails. -/
def Env.delivering (data : List Byte) : Env :=
  { pull := .ok { data := data, readErr := none, closeErr := none },
    newWriter := none, write := none, wClose := none }

/-- An environment in which the upstream puller fails with `e`. -/
def Env.failing (e : Error) : Env :=
  { pull := .error e, newWriter := none, write := none, wClose := none }

/-- The world after a fresh cacher over an empty directory cached the three bytes `0, 1, 2`
under their digest `toy:abc`. -/
def sampleWorld : puller.World :=
  (puller.BlobCacher.cacheBlob sampleHasher (Env.delivering [0, 1, 2]) "img"
    { algo := "toy", hex := "abc" } (puller.World.init fun _ => none)).2

/-- The digest of `data` under the algorithm of `d`, as the blob writer computes it. -/
def computedDigest (H : Hasher) (d : Digest) (data : List Byte) : Digest :=
  { algo := d.Algorithm, hex := H d.Algorithm data }

/-- Nothing fails around the content check: the upstream puller delivers the stream `r`, the
writer is created, the copy and both closes succeed. -/
def Env.delivers (env : Env) (r : ReadCloser) : Prop :=
  env.pull = .ok r ∧ env.newWriter = none ∧ env.write = none ∧ r.readErr = none ∧
    r.closeErr = none ∧ env.wClose = none

namespace puller

/-- The world after a fetch that stored `data` under its computed digest `k`. -/
def World.stored (w : World) (img : String) (d k : Digest) (data : List Byte) : World :=
  { w with blobs := w.blobs.publish k data,
           calls := w.calls ++ [Call.PullBlob img d] ++ [Call.NewBlobWriter d.Algorithm] }

/-- The world after the counters were raised for `n` copied bytes. -/
def World.counted (w : World) (n : Nat) : World :=
  { w with cacher := { w.cacher with
      pulledBlobBytes := (w.cacher.pulledBlobBytes + n % 2 ^ 64) % 2 ^ 64,
      pulledBlobs := (w.cacher.pulledBlobs + 1) % 2 ^ 64 } }

/-- A blob is stored under `d` and the digest of its content, under the algorithm of `d`,
is `d`. -/
def World.verified (H : Hasher) (w : World) (d : Digest) : Prop :=
  ∃ content, w.blobs d = some content ∧ computedDigest H d content = d

/-- The worlds reachable from the one built by `NewBlobCacher`, over a directory with any
content, through calls of `cacheBlobIfNotYet` and `PullBlob` that return, made one after the
other with any arguments and any behaviour of the collaborators. -/
inductive Reachable (H : Hasher) : World → Prop where
  | init (blobs : image.Blobs) : Reachable H (World.init blobs)
  | cacheBlobIfNotYet (w : World) (env : Env) (img : String) (d : Digest) (fuel : Nat)
      (r : Option Error) (w' : World) :
      Reachable H w → BlobCacher.cacheBlobIfNotYet H env img d fuel w = some (r, w') →
      Reachable H w'
  | PullBlob (w : World) (env : Env) (img : String) (d : Digest) (fuel : Nat)
      (r : Except Error image.BlobReader) (w' : World) :
      Reachable H w → BlobCacher.PullBlob H env img d fuel w = some (r, w') →
      Reachable H w'

/-- The systems reachable by concurrent callers: any number of callers, each about to start
`cacheBlobIfNotYet` with its own arguments, on the world built by `NewBlobCacher`, after any
schedule. -/
def Sys.Reachable (H : Hasher) (s : Sys) : Prop :=
  ∃ (blobs : image.Blobs) (callers : List Caller) (sched : List Nat),
    (∀ c ∈ callers, c.pc = PC.check) ∧
    s = Sys.run H { world := World.init blobs, callers := callers } sched

/-- The invariant of the machine: every digest whose status is `pullStatusPulled` has a
verified blob, and so has the digest of every caller about to run the `markPulled` section. -/
def Sys.invariant (H : Hasher) (s : Sys) : Prop :=
  (∀ k, s.world.cacher.pullStatus k = some pullStatus.pullStatusPulled → s.world.verified H k) ∧
  (∀ (j : Nat) (c : Caller), s.callers[j]? = some c → c.pc = PC.markPulled →
    s.world.verified H c.d)

end puller

/-! ## Lemmas on the cacher -/

namespace puller

open pullStatus

/-- The world `World.init` holds the cacher that a successful `NewBlobCacher` returns. -/
theorem NewBlobCacher_ok (blobs : image.Blobs) :
    NewBlobCacher none = .ok (World.init blobs).cacher := rfl

/-- The constructor `NewBlobCacher` fails exactly when `os.Stat` fails. -/
theorem NewBlobCacher_error (err : Error) : NewBlobCacher (some err) = .error err := rfl

theorem cacheBlobIfNotYet_of_pulling (H : Hasher) (env : Env) (img : String) (d : Digest)
    (w : World) (h : w.cacher.pullStatus d = some pullStatusPulling) (fuel : Nat) :
    BlobCacher.cacheBlobIfNotYet H env img d fuel w = none := by
  induction fuel with
  | zero => rfl
  | succ n ih => simp [BlobCacher.cacheBlobIfNotYet, h, ih]

theorem cacheBlobIfNotYet_of_pulled (H : Hasher) (env : Env) (img : String) (d : Digest)
    (w : World) (h : w.cacher.pullStatus d = some pullStatusPulled) (fuel : Nat) :
    BlobCacher.cacheBlobIfNotYet H env img d (fuel + 1) w = some (none, w) := by
  simp [BlobCacher.cacheBlobIfNotYet, h]

theorem cacheBlobIfNotYet_of_fresh (H : Hasher) (env : Env) (img : String) (d : Digest)
    (w : World)
    (h : w.cacher.pullStatus d = none ∨ w.cacher.pullStatus d = some pullStatusUnknown)
    (fuel : Nat) :
    BlobCacher.cacheBlobIfNotYet H env img d (fuel + 1) w
      = some (BlobCacher.cacheBlob H env img d w) := by
  rcases h with h | h <;> simp [BlobCacher.cacheBlobIfNotYet, h]

/-- The unlocked section never writes the status map. -/
theorem fetchAndStore_pullStatus (H : Hasher) (env : Env) (img : String) (d : Digest)
    (w : World) :
    (BlobCacher.fetchAndStore H env img d w).2.cacher.pullStatus = w.cacher.pullStatus := by
  unfold BlobCacher.fetchAndStore
  simp only [image.NewBlobWriter, io.Copy, image.BlobWriter.Close, image.BlobWriter.Digest]
  repeat' split
  all_goals rfl

theorem fetchAndStore_of_match (H : Hasher) (env : Env) (img : String) (d : Digest) (w : World)
    (r : ReadCloser) (henv : env.delivers r) (hdig : computedDigest H d r.data = d) :
    BlobCacher.fetchAndStore H env img d w
      = (none, (w.stored img d d r.data).counted r.data.length) := by
  obtain ⟨h1, h2, h3, h4, h5, h6⟩ := henv
  simp only [computedDigest] at hdig
  simp [BlobCacher.fetchAndStore, image.NewBlobWriter, io.Copy, image.BlobWriter.Close,
    image.BlobWriter.Digest, h1, h2, h3, h4, h5, h6, hdig, World.stored, World.counted]

theorem fetchAndStore_of_mismatch (H : Hasher) (env : Env) (img : String) (d : Digest)
    (w : World) (r : ReadCloser) (henv : env.delivers r)
    (hdig : computedDigest H d r.data ≠ d) :
    BlobCacher.fetchAndStore H env img d w
      = (some (Error.mismatch d (some (computedDigest H d r.data))),
         w.stored img d (computedDigest H d r.data) r.data) := by
  obtain ⟨h1, h2, h3, h4, h5, h6⟩ := henv
  simp only [computedDigest] at hdig
  simp [BlobCacher.fetchAndStore, image.NewBlobWriter, io.Copy, image.BlobWriter.Close,
    image.BlobWriter.Digest, h1, h2, h3, h4, h5, h6, hdig, World.stored, computedDigest]

theorem fetchAndStore_of_pull_error (H : Hasher) (env : Env) (img : String) (d : Digest)
    (w : World) (e : Error) (h : env.pull = .error e) :
    BlobCacher.fetchAndStore H env img d w
      = (some e, { w with calls := w.calls ++ [Call.PullBlob img d] }) := by
  simp [BlobCacher.fetchAndStore, h]

/-- The unlocked section returns `nil` only when nothing failed and the computed digest is
the requested one. -/
theorem fetchAndStore_eq_none (H : Hasher) (env : Env) (img : String) (d : Digest)
    (w w' : World) (h : BlobCacher.fetchAndStore H env img d w = (none, w')) :
    ∃ r, env.delivers r ∧ computedDigest H d r.data = d ∧
      w' = (w.stored img d d r.data).counted r.data.length := by
  rcases env with ⟨pull, nw, wr, wc⟩
  rcases pull with e | r
  · simp [BlobCacher.fetchAndStore] at h
  · rcases r with ⟨data, re, rc⟩
    by_cases hd : computedDigest H d data = d
    · cases nw <;> cases wr <;> cases re <;> cases rc <;> cases wc <;>
        first
        | (exfalso; simp [BlobCacher.fetchAndStore, image.NewBlobWriter, io.Copy,
            image.BlobWriter.Close, image.BlobWriter.Digest] at h; done)
        | skip
      refine ⟨⟨data, none, none⟩, ⟨rfl, rfl, rfl, rfl, rfl, rfl⟩, hd, ?_⟩
      have := fetchAndStore_of_match H ⟨.ok ⟨data, none, none⟩, none, none, none⟩ img d w
        ⟨data, none, none⟩ ⟨rfl, rfl, rfl, rfl, rfl, rfl⟩ hd
      rw [this] at h
      exact (Prod.mk.inj h).2.symm
    · exfalso
      cases nw <;> cases wr <;> cases re <;> cases rc <;> cases wc <;>
        first
        | (simp [BlobCacher.fetchAndStore, image.NewBlobWriter, io.Copy,
            image.BlobWriter.Close, image.BlobWriter.Digest] at h; done)
        | skip
      have := fetchAndStore_of_mismatch H ⟨.ok ⟨data, none, none⟩, none, none, none⟩ img d w
        ⟨data, none, none⟩ ⟨rfl, rfl, rfl, rfl, rfl, rfl⟩ hd
      rw [this] at h
      simp at h

end puller

namespace puller

open pullStatus

theorem setStatus_self (d : Digest) (st : pullStatus) (w : World) :
    (w.setStatus d st).cacher.pullStatus d = some st := by
  simp [World.setStatus]

theorem setStatus_other (d k : Digest) (st : pullStatus) (w : World) (h : k ≠ d) :
    (w.setStatus d st).cacher.pullStatus k = w.cacher.pullStatus k := by
  simp [World.setStatus, h]

theorem cacheBlob_of_fetch_none (H : Hasher) (env : Env) (img : String) (d : Digest)
    (w w1 : World)
    (h : BlobCacher.fetchAndStore H env img d (BlobCacher.setPulling d w) = (none, w1)) :
    BlobCacher.cacheBlob H env img d w = (none, BlobCacher.markPulled d w1) := by
  simp [BlobCacher.cacheBlob, h]

theorem cacheBlob_of_fetch_some (H : Hasher) (env : Env) (img : String) (d : Digest)
    (w w1 : World) (e : Error)
    (h : BlobCacher.fetchAndStore H env img d (BlobCacher.setPulling d w) = (some e, w1)) :
    BlobCacher.cacheBlob H env img d w = (some e, w1) := by
  simp [BlobCacher.cacheBlob, h]

/-- A `nil` return of `cacheBlob` comes from a fetch in which nothing failed and the digest
matched, and leaves the status at `pullStatusPulled`. -/
theorem cacheBlob_eq_none (H : Hasher) (env : Env) (img : String) (d : Digest) (w w' : World)
    (h : BlobCacher.cacheBlob H env img d w = (none, w')) :
    ∃ r, env.delivers r ∧ computedDigest H d r.data = d ∧
      w' = BlobCacher.markPulled d
        (((BlobCacher.setPulling d w).stored img d d r.data).counted r.data.length) := by
  rcases hfs : BlobCacher.fetchAndStore H env img d (BlobCacher.setPulling d w) with ⟨_ | e, w1⟩
  · obtain ⟨r, hr, hd, hw⟩ := fetchAndStore_eq_none H env img d _ _ hfs
    refine ⟨r, hr, hd, ?_⟩
    rw [cacheBlob_of_fetch_none H env img d w w1 hfs] at h
    rw [← (Prod.mk.inj h).2, hw]
  · rw [cacheBlob_of_fetch_some H env img d w w1 e hfs] at h
    simp at h

/-- A failing `cacheBlob` leaves the status of its digest at `pullStatusPulling`. -/
theorem cacheBlob_error_status (H : Hasher) (env : Env) (img : String) (d : Digest)
    (w w' : World) (e : Error) (h : BlobCacher.cacheBlob H env img d w = (some e, w')) :
    w'.cacher.pullStatus d = some pullStatusPulling := by
  have hst := fetchAndStore_pullStatus H env img d (BlobCacher.setPulling d w)
  rcases hfs : BlobCacher.fetchAndStore H env img d (BlobCacher.setPulling d w) with ⟨_ | e1, w1⟩
  · rw [cacheBlob_of_fetch_none H env img d w w1 hfs] at h
    simp at h
  · rw [cacheBlob_of_fetch_some H env img d w w1 e1 hfs] at h
    rw [hfs] at hst
    rw [← (Prod.mk.inj h).2]
    simp only at hst
    rw [hst]
    exact setStatus_self d _ w

/-- A `cacheBlob` for one digest never touches the status of another. -/
theorem cacheBlob_status_other (H : Hasher) (env : Env) (img : String) (d k : Digest)
    (w : World) (h : k ≠ d) :
    (BlobCacher.cacheBlob H env img d w).2.cacher.pullStatus k = w.cacher.pullStatus k := by
  have hst := fetchAndStore_pullStatus H env img d (BlobCacher.setPulling d w)
  rcases hfs : BlobCacher.fetchAndStore H env img d (BlobCacher.setPulling d w) with ⟨_ | e1, w1⟩
  · rw [cacheBlob_of_fetch_none H env img d w w1 hfs]
    rw [hfs] at hst
    simp only at hst ⊢
    unfold BlobCacher.markPulled
    rw [setStatus_other d k _ w1 h, hst]
    exact setStatus_other d k _ w h
  · rw [cacheBlob_of_fetch_some H env img d w w1 e1 hfs]
    rw [hfs] at hst
    simp only at hst ⊢
    rw [hst]
    exact setStatus_other d k _ w h

/-- After a `nil` return of `cacheBlobIfNotYet` the status of the digest is
`pullStatusPulled`. -/
theorem cacheBlobIfNotYet_nil_pulled (H : Hasher) (env : Env) (img : String) (d : Digest)
    (fuel : Nat) (w w' : World)
    (h : BlobCacher.cacheBlobIfNotYet H env img d fuel w = some (none, w')) :
    w'.cacher.pullStatus d = some pullStatusPulled := by
  cases fuel with
  | zero => simp [BlobCacher.cacheBlobIfNotYet] at h
  | succ n =>
    rcases hs : w.cacher.pullStatus d with _ | st
    · rw [cacheBlobIfNotYet_of_fresh H env img d w (Or.inl hs)] at h
      obtain ⟨r, -, -, hw⟩ := cacheBlob_eq_none H env img d w w' (Option.some.inj h)
      rw [hw]; exact setStatus_self d _ _
    · cases st
      · rw [cacheBlobIfNotYet_of_fresh H env img d w (Or.inr hs)] at h
        obtain ⟨r, -, -, hw⟩ := cacheBlob_eq_none H env img d w w' (Option.some.inj h)
        rw [hw]; exact setStatus_self d _ _
      · rw [cacheBlobIfNotYet_of_pulling H env img d w hs] at h
        simp at h
      · rw [cacheBlobIfNotYet_of_pulled H env img d w hs] at h
        have : w = w' := (Prod.mk.inj (Option.some.inj h)).2
        rw [← this]; exact hs

end puller

/-! ## Lemmas on the file-backed reader -/

namespace image

/-- A read that lies within the content returns exactly the requested range. -/
theorem BlobReader.Read_within (buf : List Byte) (r : BlobReader)
    (h : r.pos + buf.length ≤ r.content.length) :
    (BlobReader.Read buf r).1 = ((r.content.drop r.pos).take buf.length, buf.length, none) := by
  unfold BlobReader.Read
  by_cases h0 : buf.length = 0
  · have hb : buf = [] := List.length_eq_zero.mp h0
    simp [hb]
  · have h1 : ¬ r.content.length ≤ r.pos := by omega
    have hlen : ((r.content.drop r.pos).take buf.length).length = buf.length := by
      rw [List.length_take, List.length_drop]; omega
    simp only [h0, h1, if_false, hlen]
    rw [List.drop_length, List.append_nil]

/-- A read that starts inside the content and would run past its end returns the bytes up to
the end, followed by the untouched tail of the buffer, with a count below `len(buf)` and no
error. -/
theorem BlobReader.Read_short (buf : List Byte) (r : BlobReader)
    (h1 : r.pos < r.content.length) (h2 : r.content.length < r.pos + buf.length) :
    (BlobReader.Read buf r).1
      = (r.content.drop r.pos ++ buf.drop (r.content.length - r.pos),
         r.content.length - r.pos, none) := by
  unfold BlobReader.Read
  have h0 : ¬ buf.length = 0 := by omega
  have h3 : ¬ r.content.length ≤ r.pos := by omega
  have htake : (r.content.drop r.pos).take buf.length = r.content.drop r.pos := by
    apply List.take_of_length_le
    rw [List.length_drop]; omega
  simp only [h0, h3, if_false, htake, List.length_drop]

/-- A seek from the start to a non-negative offset succeeds and sets the position. -/
theorem BlobReader.Seek_start (off : Int) (r : BlobReader) (h : 0 ≤ off) :
    BlobReader.Seek off 0 r = (.ok off, { r with pos := off.toNat }) := by
  have h' : ¬ off < 0 := by omega
  simp [BlobReader.Seek, h']

end image

/-! ## The claims on sequential calls -/

open puller lazyfs

/-- C3 (idempotence). In a world where the status of `d` is `pullStatusPulled`, in particular
in the world left by a `cacheBlobIfNotYet` for `d` that returned `nil`, a call of
`cacheBlobIfNotYet` for `d` returns `nil` in its first loop round and leaves the whole world
as it was: the status map, both counters, the published blobs and the log of collaborator
calls, so the upstream `PullBlob` is not invoked. -/
theorem C3_idempotence (H : Hasher) (env : Env) (img : String) (d : Digest) (fuel : Nat)
    (w : World)
    (h : w.cacher.pullStatus d = some pullStatus.pullStatusPulled ∨
      ∃ env0 img0 fuel0 w0,
        BlobCacher.cacheBlobIfNotYet H env0 img0 d fuel0 w0 = some (none, w)) :
    BlobCacher.cacheBlobIfNotYet H env img d (fuel + 1) w = some (none, w) ∧
      ∀ r w', BlobCacher.cacheBlobIfNotYet H env img d (fuel + 1) w = some (r, w') →
        r = none ∧ w'.cacher.pullStatus = w.cacher.pullStatus ∧
        w'.cacher.pulledBlobBytes = w.cacher.pulledBlobBytes ∧
        w'.cacher.pulledBlobs = w.cacher.pulledBlobs ∧
        w'.calls = w.calls ∧ w'.pulls d = w.pulls d := by
  have hp : w.cacher.pullStatus d = some pullStatus.pullStatusPulled := by
    rcases h with h | ⟨env0, img0, fuel0, w0, h0⟩
    · exact h
    · exact cacheBlobIfNotYet_nil_pulled H env0 img0 d fuel0 w0 w h0
  have hcall := cacheBlobIfNotYet_of_pulled H env img d w hp fuel
  refine ⟨hcall, ?_⟩
  intro r w' hr
  rw [hcall] at hr
  obtain ⟨h1, h2⟩ := Prod.mk.inj (Option.some.inj hr)
  subst h1; subst h2
  exact ⟨rfl, rfl, rfl, rfl, rfl, rfl⟩

/-- The world after one successful caching of three bytes, and a second call on it. -/
theorem C3_idempotence_witness :
    ∃ w, BlobCacher.cacheBlobIfNotYet sampleHasher (Env.delivering [0, 1, 2]) "img"
          { algo := "toy", hex := "abc" } 1 (World.init fun _ => none) = some (none, w) ∧
      BlobCacher.cacheBlobIfNotYet sampleHasher (Env.failing Error.EOF) "img"
          { algo := "toy", hex := "abc" } 1 w = some (none, w) :=
  ⟨_, rfl, (C3_idempotence sampleHasher (Env.failing Error.EOF) "img"
    { algo := "toy", hex := "abc" } 0 _ (Or.inr ⟨Env.delivering [0, 1, 2], "img", 1,
      World.init fun _ => none, rfl⟩)).1⟩

/-- C5 (successful caching). For a digest `d` that is absent from the status map or
`pullStatusUnknown`, when the upstream puller delivers a stream `r` of `n` bytes, nothing fails
and the digest computed over the bytes is `d`, one call of `cacheBlobIfNotYet` returns `nil`
in its first loop round, invokes the upstream puller once, raises `pulledBlobs` by 1 and
`pulledBlobBytes` by `n` (both modulo `2 ^ 64`), sets the status of `d` to
`pullStatusPulled`, and afterwards `openCachedBlob` and `PullBlob` for `d` return a reader at
position 0 over exactly the `n` bytes, from which a read with an `n`-byte buffer yields them. -/
theorem C5_successful_caching (H : Hasher) (env : Env) (img : String) (d : Digest) (fuel : Nat)
    (w : World) (r : ReadCloser)
    (hst : w.cacher.pullStatus d = none ∨
      w.cacher.pullStatus d = some pullStatus.pullStatusUnknown)
    (henv : env.delivers r) (hdig : computedDigest H d r.data = d) :
    ∃ w', BlobCacher.cacheBlobIfNotYet H env img d (fuel + 1) w = some (none, w') ∧
      w'.cacher.pulledBlobs = (w.cacher.pulledBlobs + 1) % 2 ^ 64 ∧
      w'.cacher.pulledBlobBytes = (w.cacher.pulledBlobBytes + r.data.length) % 2 ^ 64 ∧
      w'.cacher.pullStatus d = some pullStatus.pullStatusPulled ∧
      w'.pulls d = w.pulls d + 1 ∧
      BlobCacher.openCachedBlob img d w' = .ok { content := r.data, pos := 0 } ∧
      (∀ env2 img2 fuel2, BlobCacher.PullBlob H env2 img2 d (fuel2 + 1) w'
        = some (.ok { content := r.data, pos := 0 }, w')) ∧
      (0 < r.data.length → ∀ buf : List Byte, buf.length = r.data.length →
        (image.BlobReader.Read buf { content := r.data, pos := 0 }).1
          = (r.data, r.data.length, none)) := by
  have hfs := fetchAndStore_of_match H env img d (BlobCacher.setPulling d w) r henv hdig
  have hcb := cacheBlob_of_fetch_none H env img d w _ hfs
  have hcall := cacheBlobIfNotYet_of_fresh H env img d w hst fuel
  rw [hcb] at hcall
  have hpulled : (BlobCacher.markPulled d
      (((BlobCacher.setPulling d w).stored img d d r.data).counted r.data.length)
      ).cacher.pullStatus d = some pullStatus.pullStatusPulled := setStatus_self d _ _
  have hopen : BlobCacher.openCachedBlob img d (BlobCacher.markPulled d
      (((BlobCacher.setPulling d w).stored img d d r.data).counted r.data.length))
      = .ok { content := r.data, pos := 0 } := by
    simp [BlobCacher.openCachedBlob, image.GetBlobReader, BlobCacher.markPulled,
      World.setStatus, World.counted, World.stored, image.Blobs.publish]
  refine ⟨_, hcall, ?_, ?_, hpulled, ?_, hopen, ?_, ?_⟩
  · simp [BlobCacher.markPulled, BlobCacher.setPulling, World.setStatus, World.counted,
      World.stored]
  · simp [BlobCacher.markPulled, BlobCacher.setPulling, World.setStatus, World.counted,
      World.stored]
  · simp [BlobCacher.markPulled, BlobCacher.setPulling, World.setStatus, World.counted,
      World.stored, World.pulls, List.filter_append]
  · intro env2 img2 fuel2
    simp only [BlobCacher.PullBlob, cacheBlobIfNotYet_of_pulled H env2 img2 d _ hpulled fuel2]
    rw [← hopen]
    rfl
  · intro hpos buf hlen
    have h := image.BlobReader.Read_within buf { content := r.data, pos := 0 }
      (by simp only [hlen]; omega)
    rw [h]
    simp [hlen]

/-- A 10-byte blob raises the blob count from 0 to 1 and the byte count from 0 to 10. -/
theorem C5_successful_caching_witness :
    ∃ w', BlobCacher.cacheBlobIfNotYet sampleHasher (Env.delivering [0, 1, 2, 3, 4, 5, 6, 7, 8, 9])
        "img" { algo := "toy", hex := "abcdefghij" } 1 (World.init fun _ => none)
        = some (none, w') ∧
      w'.cacher.pulledBlobs = 1 ∧ w'.cacher.pulledBlobBytes = 10 ∧
      w'.cacher.pullStatus { algo := "toy", hex := "abcdefghij" }
        = some pullStatus.pullStatusPulled ∧
      BlobCacher.openCachedBlob "img" { algo := "toy", hex := "abcdefghij" } w'
        = .ok { content := [0, 1, 2, 3, 4, 5, 6, 7, 8, 9], pos := 0 } := by
  obtain ⟨w', h1, h2, h3, h4, -, h6, -, -⟩ :=
    C5_successful_caching sampleHasher (Env.delivering [0, 1, 2, 3, 4, 5, 6, 7, 8, 9]) "img"
      { algo := "toy", hex := "abcdefghij" } 0 (World.init fun _ => none)
      { data := [0, 1, 2, 3, 4, 5, 6, 7, 8, 9], readErr := none, closeErr := none }
      (Or.inl rfl) ⟨rfl, rfl, rfl, rfl, rfl, rfl⟩ (by decide)
  exact ⟨w', h1, h2, h3, h4, h6⟩

/-- C2 (integrity), as amended. For a digest `d` that is absent or `pullStatusUnknown`, when
the upstream puller delivers a stream, nothing fails, and the digest the writer computed over
the bytes differs from `d`, `cacheBlobIfNotYet` returns the mismatch error, the status of `d`
is left at `pullStatusPulling` (not `pullStatusPulled`), both counters are unchanged, and the
call publishes nothing under `d`: the bytes go under their own computed digest, what is
stored under `d` is what was stored before, `openCachedBlob` for `d` returns what it returned
before, and it fails with not-found when no blob was stored under `d` before the call. -/
theorem C2_integrity_amended (H : Hasher) (env : Env) (img : String) (d : Digest) (fuel : Nat)
    (w : World) (r : ReadCloser)
    (hst : w.cacher.pullStatus d = none ∨
      w.cacher.pullStatus d = some pullStatus.pullStatusUnknown)
    (henv : env.delivers r) (hdig : computedDigest H d r.data ≠ d) :
    ∃ w', BlobCacher.cacheBlobIfNotYet H env img d (fuel + 1) w
        = some (some (Error.mismatch d (some (computedDigest H d r.data))), w') ∧
      w'.cacher.pullStatus d = some pullStatus.pullStatusPulling ∧
      w'.cacher.pullStatus d ≠ some pullStatus.pullStatusPulled ∧
      w'.cacher.pulledBlobBytes = w.cacher.pulledBlobBytes ∧
      w'.cacher.pulledBlobs = w.cacher.pulledBlobs ∧
      w'.blobs (computedDigest H d r.data) = some r.data ∧
      w'.blobs d = w.blobs d ∧
      BlobCacher.openCachedBlob img d w' = BlobCacher.openCachedBlob img d w ∧
      (w.blobs d = none → BlobCacher.openCachedBlob img d w' = .error (Error.notFound d)) := by
  have hfs := fetchAndStore_of_mismatch H env img d (BlobCacher.setPulling d w) r henv hdig
  have hcb := cacheBlob_of_fetch_some H env img d w _ _ hfs
  have hcall := cacheBlobIfNotYet_of_fresh H env img d w hst fuel
  rw [hcb] at hcall
  have hblob : ((BlobCacher.setPulling d w).stored img d (computedDigest H d r.data) r.data).blobs d
      = w.blobs d := by
    simp [World.stored, image.Blobs.publish, BlobCacher.setPulling, World.setStatus,
      Ne.symm hdig]
  have hpulling : ((BlobCacher.setPulling d w).stored img d (computedDigest H d r.data)
      r.data).cacher.pullStatus d = some pullStatus.pullStatusPulling := by
    simp [World.stored, BlobCacher.setPulling, World.setStatus]
  refine ⟨_, hcall, hpulling, ?_, rfl, rfl, ?_, hblob, ?_, ?_⟩
  · rw [hpulling]; decide
  · simp [World.stored, image.Blobs.publish]
  · simp only [BlobCacher.openCachedBlob, image.GetBlobReader, hblob]
  · intro hnone
    simp only [BlobCacher.openCachedBlob, image.GetBlobReader, hblob, hnone]

/-- On a fresh cacher over an empty directory, a stream that does not hash to the requested
digest leaves that digest at `pullStatusPulling` with nothing openable under it. -/
theorem C2_integrity_amended_witness :
    ∃ w', BlobCacher.cacheBlobIfNotYet sampleHasher (Env.delivering [3]) "img"
        { algo := "toy", hex := "abc" } 1 (World.init fun _ => none)
        = some (some (Error.mismatch { algo := "toy", hex := "abc" }
            (some { algo := "toy", hex := "d" })), w') ∧
      w'.cacher.pullStatus { algo := "toy", hex := "abc" }
        = some pullStatus.pullStatusPulling ∧
      BlobCacher.openCachedBlob "img" { algo := "toy", hex := "abc" } w'
        = .error (Error.notFound { algo := "toy", hex := "abc" }) := by
  obtain ⟨w', h1, h2, -, -, -, -, -, -, h9⟩ :=
    C2_integrity_amended sampleHasher (Env.delivering [3]) "img"
      { algo := "toy", hex := "abc" } 0 (World.init fun _ => none)
      { data := [3], readErr := none, closeErr := none }
      (Or.inl rfl) ⟨rfl, rfl, rfl, rfl, rfl, rfl⟩ (by decide)
  exact ⟨w', h1, h2, h9 rfl⟩

/-- C2 as stated fails. Starting from a fresh cacher over an empty directory, a first call
requests `toy:zzz` and the upstream puller delivers bytes hashing to `toy:abc`: the call fails
with a mismatch and the status of `toy:abc` stays absent, but the bytes are published under
`toy:abc`. A second call requests `toy:abc` and is delivered bytes hashing to `toy:d`: it
returns the mismatch error, yet `openCachedBlob` for `toy:abc` succeeds afterwards. -/
theorem C2_integrity_counterexample :
    ∃ w1 w2,
      BlobCacher.cacheBlobIfNotYet sampleHasher (Env.delivering [0, 1, 2]) "img"
        { algo := "toy", hex := "zzz" } 1 (World.init fun _ => none)
        = some (some (Error.mismatch { algo := "toy", hex := "zzz" }
            (some { algo := "toy", hex := "abc" })), w1) ∧
      w1.cacher.pullStatus { algo := "toy", hex := "abc" } = none ∧
      computedDigest sampleHasher { algo := "toy", hex := "abc" } [3]
        ≠ { algo := "toy", hex := "abc" } ∧
      BlobCacher.cacheBlobIfNotYet sampleHasher (Env.delivering [3]) "img"
        { algo := "toy", hex := "abc" } 1 w1
        = some (some (Error.mismatch { algo := "toy", hex := "abc" }
            (some { algo := "toy", hex := "d" })), w2) ∧
      BlobCacher.openCachedBlob "img" { algo := "toy", hex := "abc" } w2
        = .ok { content := [0, 1, 2], pos := 0 } :=
  ⟨_, _, rfl, rfl, by decide, rfl, rfl⟩

/-! ## Lemmas on the machine of concurrent callers -/

namespace puller

open pullStatus

/-- The status map after one section of code of a caller: only the two locked writes of
`cacheBlob` change it, and only at the caller's own digest. -/
theorem next_pullStatus (H : Hasher) (c : Caller) (w : World) (k : Digest) :
    (c.next H w).1.cacher.pullStatus k =
      if c.d = k ∧ c.pc = PC.setPulling then some pullStatusPulling
      else if c.d = k ∧ c.pc = PC.markPulled then some pullStatusPulled
      else w.cacher.pullStatus k := by
  rcases c with ⟨img, d, env, pc⟩
  cases pc with
  | check =>
    simp only [Caller.next]
    split
    · simp
    · split <;> simp
  | parked => simp [Caller.next]
  | woken => simp [Caller.next]
  | setPulling =>
    by_cases h : d = k
    · subst h; simp [Caller.next, BlobCacher.setPulling, setStatus_self]
    · simp [Caller.next, BlobCacher.setPulling, h, setStatus_other d k _ w (Ne.symm h)]
  | fetch =>
    have hst := fetchAndStore_pullStatus H env img d w
    simp only [Caller.next]
    rcases hfs : BlobCacher.fetchAndStore H env img d w with ⟨_ | e, w1⟩
    · rw [hfs] at hst; simp only at hst ⊢; simp [hst]
    · rw [hfs] at hst; simp only at hst ⊢; simp [hst]
  | markPulled =>
    by_cases h : d = k
    · subst h; simp [Caller.next, BlobCacher.markPulled, setStatus_self]
    · simp [Caller.next, BlobCacher.markPulled, h, setStatus_other d k _ w (Ne.symm h)]
  | broadcast => simp [Caller.next]
  | done r => simp [Caller.next]

theorem step_of_none (H : Hasher) (s : Sys) (i : Nat) (h : s.callers[i]? = none) :
    Sys.step H s i = s := by
  simp [Sys.step, h]

theorem step_world (H : Hasher) (s : Sys) (i : Nat) (c : Caller) (h : s.callers[i]? = some c) :
    (Sys.step H s i).world = (c.next H s.world).1 := by
  simp only [Sys.step, h]

theorem step_callers (H : Hasher) (s : Sys) (i : Nat) (c : Caller)
    (h : s.callers[i]? = some c) :
    (Sys.step H s i).callers =
      if (c.next H s.world).2.2 then
        wakeAll (s.callers.set i { c with pc := (c.next H s.world).2.1 })
      else s.callers.set i { c with pc := (c.next H s.world).2.1 } := by
  simp only [Sys.step, h]

/-- While the status of `d` is `pullStatusPulling`, a step leaves it there unless the step is
the `markPulled` section of a caller for `d`. -/
theorem step_keeps_pulling (H : Hasher) (s : Sys) (i : Nat) (d : Digest)
    (h : s.world.cacher.pullStatus d = some pullStatusPulling) :
    (Sys.step H s i).world.cacher.pullStatus d = some pullStatusPulling ∨
      ∃ c, s.callers[i]? = some c ∧ c.d = d ∧ c.pc = PC.markPulled ∧
        (Sys.step H s i).world.cacher.pullStatus d = some pullStatusPulled := by
  rcases hc : s.callers[i]? with _ | c
  · left; rw [step_of_none H s i hc]; exact h
  · rw [step_world H s i c hc, next_pullStatus]
    by_cases h1 : c.d = d ∧ c.pc = PC.setPulling
    · left; simp [h1]
    · by_cases h2 : c.d = d ∧ c.pc = PC.markPulled
      · right; exact ⟨c, rfl, h2.1, h2.2, by simp [h1, h2]⟩
      · left; simp [h1, h2, h]

/-- A caller inside the waiting loop for `d` stays inside it across any step taken while the
status of `d` is `pullStatusPulling`. -/
theorem step_keeps_waiting (H : Hasher) (s : Sys) (i j : Nat) (c : Caller) (d : Digest)
    (h : s.world.cacher.pullStatus d = some pullStatusPulling)
    (hj : s.callers[j]? = some c) (hd : c.d = d) (hw : c.pc.waits) :
    ∃ c', (Sys.step H s i).callers[j]? = some c' ∧ c'.d = d ∧ c'.img = c.img ∧
      c'.pc.waits := by
  rcases hi : s.callers[i]? with _ | ci
  · rw [step_of_none H s i hi]; exact ⟨c, hj, hd, rfl, hw⟩
  · have hlt : i < s.callers.length := by
      rcases Nat.lt_or_ge i s.callers.length with hlt | hge
      · exact hlt
      · rw [List.getElem?_eq_none hge] at hi; cases hi
    -- the caller at `j` after the update of caller `i`
    have hset : ∃ c1, (s.callers.set i { ci with pc := (ci.next H s.world).2.1 })[j]? = some c1 ∧
        c1.d = d ∧ c1.img = c.img ∧ c1.pc.waits := by
      by_cases hij : i = j
      · subst hij
        rw [hj] at hi
        obtain rfl : c = ci := Option.some.inj hi
        refine ⟨{ c with pc := (c.next H s.world).2.1 }, ?_, hd, rfl, ?_⟩
        · simp [List.getElem?_set, hlt]
        · subst hd
          rcases c with ⟨img, d0, env, pc⟩
          rcases hw with hw | hw | hw <;> simp only at hw <;> subst hw
          · simp only at h
            simp [Caller.next, h, PC.waits]
          · simp [Caller.next, PC.waits]
          · simp [Caller.next, PC.waits]
      · exact ⟨c, by rw [List.getElem?_set_ne hij]; exact hj, hd, rfl, hw⟩
    obtain ⟨c1, h1, h2, h3, h4⟩ := hset
    rw [step_callers H s i ci hi]
    split
    · refine ⟨match c1.pc with | PC.parked => { c1 with pc := PC.woken } | _ => c1, ?_, ?_, ?_, ?_⟩
      · unfold wakeAll
        rw [List.getElem?_map, h1]
        rfl
      · split <;> exact h2
      · split <;> exact h3
      · split
        · simp [PC.waits]
        · exact h4
    · exact ⟨c1, h1, h2, h3, h4⟩

end puller

namespace puller

open pullStatus

theorem run_cons (H : Hasher) (s : Sys) (i : Nat) (sched : List Nat) :
    Sys.run H s (i :: sched) = Sys.run H (Sys.step H s i) sched := rfl

/-- A caller inside the waiting loop for `d` is still inside it after any schedule along
which the status of `d` stays `pullStatusPulling`. -/
theorem run_keeps_waiting (H : Hasher) (d : Digest) (sched : List Nat) :
    ∀ (s : Sys) (j : Nat) (c : Caller),
      (∀ n, (Sys.run H s (sched.take n)).world.cacher.pullStatus d = some pullStatusPulling) →
      s.callers[j]? = some c → c.d = d → c.pc.waits →
      ∃ c', (Sys.run H s sched).callers[j]? = some c' ∧ c'.d = d ∧ c'.img = c.img ∧
        c'.pc.waits := by
  induction sched with
  | nil => intro s j c _ hj hd hw; exact ⟨c, hj, hd, rfl, hw⟩
  | cons i rest ih =>
    intro s j c hall hj hd hw
    have h0 : s.world.cacher.pullStatus d = some pullStatusPulling := hall 0
    obtain ⟨c1, h1, h2, h3, h4⟩ := step_keeps_waiting H s i j c d h0 hj hd hw
    obtain ⟨c2, k1, k2, k3, k4⟩ := ih (Sys.step H s i) j c1 (fun n => hall (n + 1)) h1 h2 h4
    exact ⟨c2, k1, k2, k3.trans h3, k4⟩

/-- A returning `cacheBlobIfNotYet` for one digest leaves the status of every other digest
as it was. -/
theorem cacheBlobIfNotYet_status_other (H : Hasher) (env : Env) (img : String) (d k : Digest)
    (hk : k ≠ d) (fuel : Nat) (w w' : World) (r : Option Error)
    (h : BlobCacher.cacheBlobIfNotYet H env img d fuel w = some (r, w')) :
    w'.cacher.pullStatus k = w.cacher.pullStatus k := by
  cases fuel with
  | zero => simp [BlobCacher.cacheBlobIfNotYet] at h
  | succ n =>
    have hfresh : w.cacher.pullStatus d = none ∨ w.cacher.pullStatus d = some pullStatusUnknown →
        w'.cacher.pullStatus k = w.cacher.pullStatus k := by
      intro hs
      rw [cacheBlobIfNotYet_of_fresh H env img d w hs] at h
      have := cacheBlob_status_other H env img d k w hk
      rw [Option.some.inj h] at this
      exact this
    rcases hs : w.cacher.pullStatus d with _ | st
    · exact hfresh (Or.inl hs)
    · cases st
      · exact hfresh (Or.inr hs)
      · rw [cacheBlobIfNotYet_of_pulling H env img d w hs] at h
        simp at h
      · rw [cacheBlobIfNotYet_of_pulled H env img d w hs] at h
        rw [← (Prod.mk.inj (Option.some.inj h)).2]

/-- In calls made one after the other the status never leaves `pullStatusPulled`: a
returning `cacheBlobIfNotYet` for any digest keeps every `pullStatusPulled` status. -/
theorem cacheBlobIfNotYet_keeps_pulled (H : Hasher) (env : Env) (img : String) (d k : Digest)
    (fuel : Nat) (w w' : World) (r : Option Error)
    (h : BlobCacher.cacheBlobIfNotYet H env img d fuel w = some (r, w'))
    (hk : w.cacher.pullStatus k = some pullStatusPulled) :
    w'.cacher.pullStatus k = some pullStatusPulled := by
  by_cases hkd : k = d
  · subst hkd
    cases fuel with
    | zero => simp [BlobCacher.cacheBlobIfNotYet] at h
    | succ n =>
      rw [cacheBlobIfNotYet_of_pulled H env img k w hk] at h
      rw [← (Prod.mk.inj (Option.some.inj h)).2]
      exact hk
  · rw [cacheBlobIfNotYet_status_other H env img d k hkd fuel w w' r h]
    exact hk

end puller

/-- C8 (fetch failure). For a digest `d` that is absent or `pullStatusUnknown`, when the
upstream `PullBlob` returns the error `e`, `cacheBlobIfNotYet` returns exactly `e`; the only
collaborator call it made is that `PullBlob`, so no blob writer was created; the published
blobs and both counters are unchanged; and the status of `d` is left at
`pullStatusPulling`. From any world in which the status of `d` is `pullStatusPulling`:
a later `cacheBlobIfNotYet` for `d` running alone never returns, whatever the fuel; a returning
`cacheBlobIfNotYet` for any digest leaves `d` at `pullStatusPulling`; a `cacheBlob` leaves it
there unless it is a `cacheBlob` of `d` that returns `nil`; among concurrent callers every step
leaves it there except the `markPulled` section of a caller for `d`; and a caller inside the
waiting loop for `d` is still inside it after every schedule along which the status of `d`
stays `pullStatusPulling`. -/
theorem C8_fetch_failure (H : Hasher) (env : Env) (img : String) (d : Digest) (fuel : Nat)
    (w : World) (e : Error)
    (hst : w.cacher.pullStatus d = none ∨
      w.cacher.pullStatus d = some pullStatus.pullStatusUnknown)
    (hpull : env.pull = .error e) :
    ∃ w', BlobCacher.cacheBlobIfNotYet H env img d (fuel + 1) w = some (some e, w') ∧
      w'.calls = w.calls ++ [Call.PullBlob img d] ∧
      w'.blobs = w.blobs ∧
      w'.cacher.pulledBlobBytes = w.cacher.pulledBlobBytes ∧
      w'.cacher.pulledBlobs = w.cacher.pulledBlobs ∧
      w'.cacher.pullStatus d = some pullStatus.pullStatusPulling ∧
      (∀ v : World, v.cacher.pullStatus d = some pullStatus.pullStatusPulling →
        (∀ env2 img2 fuel2, BlobCacher.cacheBlobIfNotYet H env2 img2 d fuel2 v = none) ∧
        (∀ env2 img2 d2 fuel2 r v',
          BlobCacher.cacheBlobIfNotYet H env2 img2 d2 fuel2 v = some (r, v') →
          v'.cacher.pullStatus d = some pullStatus.pullStatusPulling) ∧
        (∀ env2 img2 d2,
          (BlobCacher.cacheBlob H env2 img2 d2 v).2.cacher.pullStatus d
              = some pullStatus.pullStatusPulling ∨
            (d2 = d ∧ (BlobCacher.cacheBlob H env2 img2 d2 v).1 = none ∧
              (BlobCacher.cacheBlob H env2 img2 d2 v).2.cacher.pullStatus d
                = some pullStatus.pullStatusPulled))) ∧
      (∀ (s : Sys) (i : Nat),
        s.world.cacher.pullStatus d = some pullStatus.pullStatusPulling →
        (Sys.step H s i).world.cacher.pullStatus d = some pullStatus.pullStatusPulling ∨
          ∃ c, s.callers[i]? = some c ∧ c.d = d ∧ c.pc = PC.markPulled) ∧
      (∀ (s : Sys) (sched : List Nat) (j : Nat) (c : Caller),
        (∀ n, (Sys.run H s (sched.take n)).world.cacher.pullStatus d
          = some pullStatus.pullStatusPulling) →
        s.callers[j]? = some c → c.d = d → c.pc.waits →
        ∃ c', (Sys.run H s sched).callers[j]? = some c' ∧ c'.d = d ∧ c'.pc.waits) := by
  have hfs := fetchAndStore_of_pull_error H env img d (BlobCacher.setPulling d w) e hpull
  have hcb := cacheBlob_of_fetch_some H env img d w _ _ hfs
  have hcall := cacheBlobIfNotYet_of_fresh H env img d w hst fuel
  rw [hcb] at hcall
  refine ⟨_, hcall, rfl, rfl, rfl, rfl, ?_, ?_, ?_, ?_⟩
  · simp [BlobCacher.setPulling, World.setStatus]
  · intro v hv
    refine ⟨fun env2 img2 fuel2 => cacheBlobIfNotYet_of_pulling H env2 img2 d v hv fuel2, ?_, ?_⟩
    · intro env2 img2 d2 fuel2 r v' hr
      by_cases h2 : d = d2
      · subst h2
        rw [cacheBlobIfNotYet_of_pulling H env2 img2 d v hv fuel2] at hr
        cases hr
      · rw [cacheBlobIfNotYet_status_other H env2 img2 d2 d h2 fuel2 v v' r hr]
        exact hv
    · intro env2 img2 d2
      by_cases h2 : d = d2
      · subst h2
        rcases hres : BlobCacher.cacheBlob H env2 img2 d v with ⟨_ | e2, v'⟩
        · right
          obtain ⟨r, -, -, hw⟩ := cacheBlob_eq_none H env2 img2 d v v' hres
          exact ⟨rfl, rfl, by rw [hw]; exact setStatus_self d _ _⟩
        · left
          exact cacheBlob_error_status H env2 img2 d v v' e2 hres
      · left
        rw [cacheBlob_status_other H env2 img2 d2 d v h2]
        exact hv
  · intro s i hs
    rcases step_keeps_pulling H s i d hs with h | ⟨c, h1, h2, h3, -⟩
    · exact Or.inl h
    · exact Or.inr ⟨c, h1, h2, h3⟩
  · intro s sched j c hall hj hd hw
    obtain ⟨c', h1, h2, -, h4⟩ := run_keeps_waiting H d sched s j c hall hj hd hw
    exact ⟨c', h1, h2, h4⟩

/-- A fresh cacher whose upstream puller fails: the call returns the puller's error, and a
second call for the same digest does not return within 100 loop rounds. -/
theorem C8_fetch_failure_witness :
    ∃ w', BlobCacher.cacheBlobIfNotYet sampleHasher (Env.failing (Error.fault "unreachable"))
        "img" { algo := "toy", hex := "abc" } 1 (World.init fun _ => none)
        = some (some (Error.fault "unreachable"), w') ∧
      w'.calls = [Call.PullBlob "img" { algo := "toy", hex := "abc" }] ∧
      w'.cacher.pullStatus { algo := "toy", hex := "abc" }
        = some pullStatus.pullStatusPulling ∧
      BlobCacher.cacheBlobIfNotYet sampleHasher (Env.delivering [0, 1, 2]) "img"
        { algo := "toy", hex := "abc" } 100 w' = none := by
  obtain ⟨w', h1, h2, -, -, -, h6, h7, -, -⟩ :=
    C8_fetch_failure sampleHasher (Env.failing (Error.fault "unreachable")) "img"
      { algo := "toy", hex := "abc" } 0 (World.init fun _ => none)
      (Error.fault "unreachable") (Or.inl rfl) rfl
  exact ⟨w', h1, h2, h6, (h7 w' h6).1 _ _ _⟩

/-! ## The claims on `file.Read` -/

namespace lazyfs

theorem file.Read_nil {σ ρ : Type} (f : file σ ρ) (buf : List Byte) (off : Int) (s : σ)
    (h : f.res.Digest = []) : file.Read f buf off s = some ((none, fuse.EIO), s) := by
  simp [file.Read, h]

theorem file.Read_pull_none {σ ρ : Type} (f : file σ ρ) (buf : List Byte) (off : Int) (s : σ)
    (d : Digest) (ds : List Digest) (h : f.res.Digest = d :: ds)
    (hp : f.opts.Puller.PullBlob f.opts.Image d s = none) : file.Read f buf off s = none := by
  simp [file.Read, h, hp]

theorem file.Read_pull_error {σ ρ : Type} (f : file σ ρ) (buf : List Byte) (off : Int) (s : σ)
    (d : Digest) (ds : List Digest) (e : Error) (s1 : σ) (h : f.res.Digest = d :: ds)
    (hp : f.opts.Puller.PullBlob f.opts.Image d s = some (.error e, s1)) :
    file.Read f buf off s = some ((none, fuse.EIO), s1) := by
  simp [file.Read, h, hp]

theorem file.Read_seek_error {σ ρ : Type} (f : file σ ρ) (buf : List Byte) (off : Int) (s : σ)
    (d : Digest) (ds : List Digest) (br br1 : ρ) (e : Error) (s1 : σ)
    (h : f.res.Digest = d :: ds)
    (hp : f.opts.Puller.PullBlob f.opts.Image d s = some (.ok br, s1))
    (hs : f.opts.BlobReader.Seek off 0 br = (.error e, br1)) :
    file.Read f buf off s = some ((none, fuse.EIO), s1) := by
  simp [file.Read, h, hp, hs]

theorem file.Read_read_error {σ ρ : Type} (f : file σ ρ) (buf : List Byte) (off : Int) (s : σ)
    (d : Digest) (ds : List Digest) (br br1 br2 : ρ) (n : Int) (b : List Byte) (k : Nat)
    (e : Error) (s1 : σ) (h : f.res.Digest = d :: ds)
    (hp : f.opts.Puller.PullBlob f.opts.Image d s = some (.ok br, s1))
    (hs : f.opts.BlobReader.Seek off 0 br = (.ok n, br1))
    (hr : f.opts.BlobReader.Read buf br1 = ((b, k, some e), br2)) :
    file.Read f buf off s = some ((none, fuse.EIO), s1) := by
  simp [file.Read, h, hp, hs, hr]

theorem file.Read_ok {σ ρ : Type} (f : file σ ρ) (buf : List Byte) (off : Int) (s : σ)
    (d : Digest) (ds : List Digest) (br br1 br2 : ρ) (n : Int) (b : List Byte) (k : Nat)
    (s1 : σ) (h : f.res.Digest = d :: ds)
    (hp : f.opts.Puller.PullBlob f.opts.Image d s = some (.ok br, s1))
    (hs : f.opts.BlobReader.Seek off 0 br = (.ok n, br1))
    (hr : f.opts.BlobReader.Read buf br1 = ((b, k, none), br2)) :
    file.Read f buf off s = some ((some (fuse.ReadResultData b), fuse.OK), s1) := by
  simp [file.Read, h, hp, hs, hr]

end lazyfs

/-- C6 (uniform read failure). `file.Read` returns exactly when the digest list is empty or
`PullBlob` for the first digest returns. When it returns, the result is `(nil, EIO)` if and
only if the digest list is empty, or `PullBlob` returned an error, or the reader's `Seek`
returned an error, or the reader's `Read` returned an error; in every other case the status is
`OK` and a read result is returned. With an empty digest list the result is `(nil, EIO)`
whatever the puller and reader are and the puller's state is untouched: the puller is not
invoked. -/
theorem C6_uniform_read_failure {σ ρ : Type} (f : file σ ρ) (buf : List Byte) (off : Int)
    (s : σ) :
    (file.Read f buf off s = none ↔
      ∃ d ds, f.res.Digest = d :: ds ∧ f.opts.Puller.PullBlob f.opts.Image d s = none) ∧
    (∀ res s', file.Read f buf off s = some (res, s') →
      (res = (none, fuse.EIO) ↔
        f.res.Digest = [] ∨ f.pullFails s ∨ f.seekFails off s ∨ f.readFails buf off s) ∧
      (res ≠ (none, fuse.EIO) → res.2 = fuse.OK ∧ ∃ data, res.1 = some data)) ∧
    (f.res.Digest = [] → ∀ opts : Options σ ρ,
      file.Read { opts := opts, res := f.res } buf off s = some ((none, fuse.EIO), s)) := by
  have hne : fuse.OK ≠ fuse.EIO := by decide
  refine ⟨?_, ?_, ?_⟩
  · rcases hd : f.res.Digest with _ | ⟨d, ds⟩
    · simp [file.Read_nil f buf off s hd]
    · rcases hp : f.opts.Puller.PullBlob f.opts.Image d s with _ | ⟨r | br, s1⟩
      · simp [file.Read_pull_none f buf off s d ds hd hp, hp]
      · simp [file.Read_pull_error f buf off s d ds r s1 hd hp, hp]
      · rcases hs : f.opts.BlobReader.Seek off 0 br with ⟨e | n, br1⟩
        · simp [file.Read_seek_error f buf off s d ds br br1 e s1 hd hp hs, hp]
        · rcases hr : f.opts.BlobReader.Read buf br1 with ⟨⟨b, k, _ | e⟩, br2⟩
          · simp [file.Read_ok f buf off s d ds br br1 br2 n b k s1 hd hp hs hr, hp]
          · simp [file.Read_read_error f buf off s d ds br br1 br2 n b k e s1 hd hp hs hr, hp]
  · intro res s' hres
    rcases hd : f.res.Digest with _ | ⟨d, ds⟩
    · rw [file.Read_nil f buf off s hd] at hres
      obtain ⟨rfl, -⟩ := Prod.mk.inj (Option.some.inj hres)
      simp
    · rcases hp : f.opts.Puller.PullBlob f.opts.Image d s with _ | ⟨r | br, s1⟩
      · rw [file.Read_pull_none f buf off s d ds hd hp] at hres; cases hres
      · rw [file.Read_pull_error f buf off s d ds r s1 hd hp] at hres
        obtain ⟨rfl, -⟩ := Prod.mk.inj (Option.some.inj hres)
        refine ⟨⟨fun _ => Or.inr (Or.inl ⟨d, ds, r, s1, hd, hp⟩), fun _ => rfl⟩, ?_⟩
        intro h; exact absurd rfl h
      · rcases hs : f.opts.BlobReader.Seek off 0 br with ⟨e | n, br1⟩
        · rw [file.Read_seek_error f buf off s d ds br br1 e s1 hd hp hs] at hres
          obtain ⟨rfl, -⟩ := Prod.mk.inj (Option.some.inj hres)
          refine ⟨⟨fun _ => Or.inr (Or.inr (Or.inl ⟨d, ds, br, s1, e, br1, hd, hp, hs⟩)),
            fun _ => rfl⟩, ?_⟩
          intro h; exact absurd rfl h
        · rcases hr : f.opts.BlobReader.Read buf br1 with ⟨⟨b, k, _ | e⟩, br2⟩
          · rw [file.Read_ok f buf off s d ds br br1 br2 n b k s1 hd hp hs hr] at hres
            obtain ⟨rfl, -⟩ := Prod.mk.inj (Option.some.inj hres)
            refine ⟨⟨fun h => ?_, fun h => ?_⟩, fun _ => ⟨rfl, _, rfl⟩⟩
            · exact absurd (Prod.mk.inj h).2 hne
            · exfalso
              rcases h with h | ⟨d', ds', e', s1', hd', hp'⟩ |
                  ⟨d', ds', br', s1', e', br1', hd', hp', hs'⟩ |
                  ⟨d', ds', br', s1', n', br1', b', k', e', br2', hd', hp', hs', hr'⟩
              · cases h
              · rw [hd] at hd'
                obtain ⟨rfl, -⟩ := List.cons.inj hd'
                rw [hp] at hp'; cases hp'
              · rw [hd] at hd'
                obtain ⟨rfl, -⟩ := List.cons.inj hd'
                rw [hp] at hp'
                obtain ⟨h1, -⟩ := Prod.mk.inj (Option.some.inj hp')
                obtain rfl := Except.ok.inj h1
                rw [hs] at hs'; cases hs'
              · rw [hd] at hd'
                obtain ⟨rfl, -⟩ := List.cons.inj hd'
                rw [hp] at hp'
                obtain ⟨h1, -⟩ := Prod.mk.inj (Option.some.inj hp')
                obtain rfl := Except.ok.inj h1
                rw [hs] at hs'
                obtain ⟨-, rfl⟩ := Prod.mk.inj hs'
                rw [hr] at hr'
                cases hr'
          · rw [file.Read_read_error f buf off s d ds br br1 br2 n b k e s1 hd hp hs hr] at hres
            obtain ⟨rfl, -⟩ := Prod.mk.inj (Option.some.inj hres)
            refine ⟨⟨fun _ => Or.inr (Or.inr (Or.inr
              ⟨d, ds, br, s1, n, br1, b, k, e, br2, hd, hp, hs, hr⟩)), fun _ => rfl⟩, ?_⟩
            intro h; exact absurd rfl h
  · intro hd opts
    exact file.Read_nil { opts := opts, res := f.res } buf off s hd

namespace lazyfs

/-- On a cached blob, `PullBlob` of the cacher returns a reader at position 0 over the blob
and leaves the world as it was. -/
theorem cacherPuller_of_cached (H : Hasher) (env : Env) (fuel : Nat) (img : String) (d : Digest)
    (w : puller.World) (c : List Byte)
    (hst : w.cacher.pullStatus d = some puller.pullStatus.pullStatusPulled)
    (hblob : w.blobs d = some c) :
    (cacherPuller H env (fuel + 1)).PullBlob img d w
      = some (.ok { content := c, pos := 0 }, w) := by
  simp [cacherPuller, puller.BlobCacher.PullBlob,
    puller.cacheBlobIfNotYet_of_pulled H env img d w hst fuel,
    puller.BlobCacher.openCachedBlob, image.GetBlobReader, hblob]

end lazyfs

/-- C4 (read correctness). For a cached blob (status `pullStatusPulled`, content `blob` stored
under `d`), a buffer of length `k` and an offset `off ≥ 0` with `off + k ≤ len(blob)`, `file.Read`
on a file whose first digest is `d` returns status `OK` and a result whose data is the `k`
bytes `blob[off .. off+k)`; the world is left as it was. -/
theorem C4_read_correctness (H : Hasher) (env : Env) (fuel : Nat) (img : String) (d : Digest)
    (ds : List Digest) (w : World) (blob buf : List Byte) (off : Int)
    (hst : w.cacher.pullStatus d = some pullStatus.pullStatusPulled)
    (hblob : w.blobs d = some blob)
    (hoff : 0 ≤ off) (hlen : off + buf.length ≤ blob.length) :
    file.Read (cachedFile H env (fuel + 1) img { Digest := d :: ds }) buf off w
      = some ((some (fuse.ReadResultData ((blob.drop off.toNat).take buf.length)), fuse.OK), w) ∧
    ((blob.drop off.toNat).take buf.length).length = buf.length ∧
    (∀ i, i < buf.length →
      ((blob.drop off.toNat).take buf.length)[i]? = blob[off.toNat + i]?) := by
  have hp := cacherPuller_of_cached H env fuel img d w blob hst hblob
  have hs := image.BlobReader.Seek_start off { content := blob, pos := 0 } hoff
  have hle : off.toNat + buf.length ≤ blob.length := by omega
  have hr1 := image.BlobReader.Read_within buf { content := blob, pos := off.toNat } hle
  rcases hr : image.BlobReader.Read buf { content := blob, pos := off.toNat } with ⟨x, br2⟩
  rw [hr] at hr1
  simp only at hr1
  subst hr1
  refine ⟨?_, ?_, ?_⟩
  · exact file.Read_ok (cachedFile H env (fuel + 1) img { Digest := d :: ds }) buf off w d ds
      { content := blob, pos := 0 } { content := blob, pos := off.toNat } br2 off _ _ w rfl hp hs hr
  · rw [List.length_take, List.length_drop]; omega
  · intro i hi
    rw [List.getElem?_take_of_lt hi, List.getElem?_drop]

/-- Reading two bytes at offset 1 of the cached three-byte blob `0, 1, 2` yields `1, 2`. -/
theorem C4_read_correctness_witness :
    file.Read (cachedFile sampleHasher (Env.failing Error.EOF) 1 "img"
        { Digest := [{ algo := "toy", hex := "abc" }] }) [9, 9] 1 sampleWorld
      = some ((some (fuse.ReadResultData [1, 2]), fuse.OK), sampleWorld) :=
  (C4_read_correctness sampleHasher (Env.failing Error.EOF) 0 "img"
    { algo := "toy", hex := "abc" } [] sampleWorld [0, 1, 2] [9, 9] 1 rfl rfl
    (by decide) (by decide)).1

/-- C7 (no partial success), as amended. `file.Read` does not treat a short read as an
error: whenever `PullBlob` and `Seek` succeed and the reader's `Read` stores `k` bytes with
`k < len(buf)` and reports no error, `file.Read` returns a result with status `OK`, not `EIO`,
and the first `k` bytes of the result are the `k` bytes the reader stored at the front of the
buffer. -/
theorem C7_short_read_amended {σ ρ : Type} (f : file σ ρ) (buf : List Byte) (off : Int) (s : σ)
    (d : Digest) (ds : List Digest) (br br1 br2 : ρ) (n : Int) (b : List Byte) (k : Nat)
    (s1 : σ) (hd : f.res.Digest = d :: ds)
    (hp : f.opts.Puller.PullBlob f.opts.Image d s = some (.ok br, s1))
    (hs : f.opts.BlobReader.Seek off 0 br = (.ok n, br1))
    (hr : f.opts.BlobReader.Read buf br1 = ((b, k, none), br2))
    (_hshort : k < buf.length) :
    (∃ data, file.Read f buf off s = some ((some data, fuse.OK), s1) ∧
      data.data.take k = b.take k) ∧
      ∀ res s', file.Read f buf off s = some (res, s') → res.2 ≠ fuse.EIO := by
  have h := file.Read_ok f buf off s d ds br br1 br2 n b k s1 hd hp hs hr
  refine ⟨⟨fuse.ReadResultData b, h, rfl⟩, ?_⟩
  intro res s' hres
  rw [h] at hres
  obtain ⟨rfl, -⟩ := Prod.mk.inj (Option.some.inj hres)
  show fuse.OK ≠ fuse.EIO
  decide

/-- A four-byte read at offset 1 of the cached three-byte blob `0, 1, 2`: the reader stores
the two bytes `1, 2` and `file.Read` returns status `OK` with a result that starts with them. -/
theorem C7_short_read_amended_witness :
    ∃ data, file.Read (cachedFile sampleHasher (Env.failing Error.EOF) 1 "img"
        { Digest := [{ algo := "toy", hex := "abc" }] }) [9, 9, 9, 9] 1 sampleWorld
      = some ((some data, fuse.OK), sampleWorld) ∧ data.data.take 2 = [1, 2] :=
  (C7_short_read_amended (cachedFile sampleHasher (Env.failing Error.EOF) 1 "img"
      { Digest := [{ algo := "toy", hex := "abc" }] }) [9, 9, 9, 9] 1 sampleWorld
    { algo := "toy", hex := "abc" } [] { content := [0, 1, 2], pos := 0 }
    { content := [0, 1, 2], pos := 1 } { content := [0, 1, 2], pos := 3 } 1 [1, 2, 9, 9] 2
    sampleWorld rfl rfl rfl rfl (by decide)).1

/-- C7 as stated fails. The blob `0, 1, 2` is cached under `toy:abc`; the buffer holds
`9, 9, 9, 9` and the offset is 1, so `off < S < off + len(buf)`. The reader's `Read` stores 2
bytes, fewer than 4, and reports no error; `file.Read` returns `OK`, not `EIO`, and its result
ends in the two bytes `9, 9` that the reader did not write. -/
theorem C7_short_read_counterexample :
    (image.BlobReader.Read [9, 9, 9, 9] { content := [0, 1, 2], pos := 1 }).1
        = ([1, 2, 9, 9], 2, none) ∧
      (file.Read (cachedFile sampleHasher (Env.failing Error.EOF) 1 "img"
          { Digest := [{ algo := "toy", hex := "abc" }] }) [9, 9, 9, 9] 1 sampleWorld).map
        (fun x => x.1) = some (some (fuse.ReadResultData [1, 2, 9, 9]), fuse.OK) ∧
      fuse.OK ≠ fuse.EIO := by
  refine ⟨by decide, by decide, by decide⟩

/-! ## The race between the status check and the status write -/

/-- C1 (single-flight) fails on the code. Two callers of `cacheBlobIfNotYet` for `toy:abc`
start on a fresh cacher. Both run the locked status check (cacher.go:64-72) before either
runs the locked write of `pullStatusPulling` (cacher.go:83-85): both read an absent status,
both leave the loop with `alreadyCached = false`, both enter `cacheBlob`. Along the schedule
`0, 1, 0, 1, 0, 1, 0, 1, 0, 1` the upstream `PullBlob` is invoked twice for the one digest, both
callers return `nil`, and the blob is counted twice. -/
theorem C1_single_flight_race :
    (Sys.run sampleHasher
        (Sys.start (fun _ => none) "img" { algo := "toy", hex := "abc" }
          (Env.delivering [0, 1, 2]) 2)
        [0, 1, 0, 1, 0, 1]).world.pulls { algo := "toy", hex := "abc" } = 2 ∧
      ((Sys.run sampleHasher
        (Sys.start (fun _ => none) "img" { algo := "toy", hex := "abc" }
          (Env.delivering [0, 1, 2]) 2)
        [0, 1]).callers.map fun c => c.pc) = [PC.setPulling, PC.setPulling] ∧
      ((Sys.run sampleHasher
        (Sys.start (fun _ => none) "img" { algo := "toy", hex := "abc" }
          (Env.delivering [0, 1, 2]) 2)
        [0, 1, 0, 1, 0, 1, 0, 1, 0, 1]).callers.map fun c => c.pc)
          = [PC.done none, PC.done none] ∧
      (Sys.run sampleHasher
        (Sys.start (fun _ => none) "img" { algo := "toy", hex := "abc" }
          (Env.delivering [0, 1, 2]) 2)
        [0, 1, 0, 1, 0, 1, 0, 1, 0, 1]).world.cacher.pulledBlobs = 2 := by
  refine ⟨by decide, by decide, by decide, by decide⟩

/-- C9 (monotonic pull status) fails on the code. Two callers of `cacheBlobIfNotYet` for
`toy:abc` start on a fresh cacher and both pass the status check. Caller 0 then runs
`cacheBlob` to its end: after the schedule `0, 1, 0, 0, 0` the status is `pullStatusPulled`.
The next step of caller 1 is the write of cacher.go:83-85, which sets the status back to
`pullStatusPulling`. -/
theorem C9_status_regresses :
    (Sys.run sampleHasher
        (Sys.start (fun _ => none) "img" { algo := "toy", hex := "abc" }
          (Env.delivering [0, 1, 2]) 2)
        [0, 1, 0, 0, 0]).world.cacher.pullStatus { algo := "toy", hex := "abc" }
      = some pullStatus.pullStatusPulled ∧
    (Sys.run sampleHasher
        (Sys.start (fun _ => none) "img" { algo := "toy", hex := "abc" }
          (Env.delivering [0, 1, 2]) 2)
        [0, 1, 0, 0, 0, 1]).world.cacher.pullStatus { algo := "toy", hex := "abc" }
      = some pullStatus.pullStatusPulling := by
  refine ⟨by decide, by decide⟩

/-! ## Pulled implies a verified blob -/

namespace puller

open pullStatus

/-- What the unlocked section does to the published blobs: nothing, or one publication of the
fetched bytes under their computed digest. -/
theorem fetchAndStore_blobs (H : Hasher) (env : Env) (img : String) (d : Digest) (w : World) :
    (BlobCacher.fetchAndStore H env img d w).2.blobs = w.blobs ∨
      ∃ data, (BlobCacher.fetchAndStore H env img d w).2.blobs
        = w.blobs.publish (computedDigest H d data) data := by
  rcases env with ⟨pull, nw, wr, wc⟩
  rcases pull with e | r
  · left; simp [BlobCacher.fetchAndStore]
  · rcases r with ⟨data, re, rc⟩
    by_cases hall : nw = none ∧ wr = none ∧ re = none ∧ rc = none ∧ wc = none
    · obtain ⟨rfl, rfl, rfl, rfl, rfl⟩ := hall
      right
      refine ⟨data, ?_⟩
      by_cases hd : computedDigest H d data = d
      · rw [fetchAndStore_of_match H _ img d w ⟨data, none, none⟩
          ⟨rfl, rfl, rfl, rfl, rfl, rfl⟩ hd]
        simp only [World.counted, World.stored]
        rw [hd]
      · rw [fetchAndStore_of_mismatch H _ img d w ⟨data, none, none⟩
          ⟨rfl, rfl, rfl, rfl, rfl, rfl⟩ hd]
        simp only [World.stored]
    · left
      cases nw <;> cases wr <;> cases re <;> cases rc <;> cases wc <;>
        first
        | (exfalso; exact hall ⟨rfl, rfl, rfl, rfl, rfl⟩)
        | simp [BlobCacher.fetchAndStore, image.NewBlobWriter, io.Copy,
            image.BlobWriter.Close, image.BlobWriter.Digest]

/-- A publication under a computed digest keeps every verified blob verified. -/
theorem publish_verified (H : Hasher) (w w' : World) (d k : Digest) (data : List Byte)
    (hb : w'.blobs = w.blobs.publish (computedDigest H d data) data)
    (hv : w.verified H k) : w'.verified H k := by
  obtain ⟨content, h1, h2⟩ := hv
  by_cases hk : k = computedDigest H d data
  · refine ⟨data, ?_, ?_⟩
    · rw [hb]; simp [image.Blobs.publish, hk]
    · rw [hk]; rfl
  · refine ⟨content, ?_, h2⟩
    rw [hb]; simp [image.Blobs.publish, hk, h1]

theorem fetchAndStore_verified (H : Hasher) (env : Env) (img : String) (d k : Digest)
    (w : World) (hv : w.verified H k) :
    (BlobCacher.fetchAndStore H env img d w).2.verified H k := by
  rcases fetchAndStore_blobs H env img d w with h | ⟨data, h⟩
  · obtain ⟨content, h1, h2⟩ := hv
    exact ⟨content, by rw [h]; exact h1, h2⟩
  · exact publish_verified H w _ d k data h hv

/-- After the unlocked section returned `nil`, the fetched blob is stored under the requested
digest and hashes to it. -/
theorem fetchAndStore_none_verified (H : Hasher) (env : Env) (img : String) (d : Digest)
    (w w' : World) (h : BlobCacher.fetchAndStore H env img d w = (none, w')) :
    w'.verified H d := by
  obtain ⟨r, -, hd, hw⟩ := fetchAndStore_eq_none H env img d w w' h
  refine ⟨r.data, ?_, hd⟩
  rw [hw]
  simp [World.counted, World.stored, image.Blobs.publish]

theorem setStatus_verified (H : Hasher) (d k : Digest) (st : pullStatus) (w : World)
    (hv : w.verified H k) : (w.setStatus d st).verified H k := hv

/-- A `cacheBlob` keeps the invariant: every digest whose status is `pullStatusPulled` has a
verified blob. -/
theorem cacheBlob_invariant (H : Hasher) (env : Env) (img : String) (d : Digest) (w : World)
    (hinv : ∀ k, w.cacher.pullStatus k = some pullStatusPulled → w.verified H k) :
    ∀ k, (BlobCacher.cacheBlob H env img d w).2.cacher.pullStatus k = some pullStatusPulled →
      (BlobCacher.cacheBlob H env img d w).2.verified H k := by
  intro k hk
  by_cases hkd : k = d
  · subst hkd
    rcases hres : BlobCacher.cacheBlob H env img k w with ⟨_ | e, w'⟩
    · rcases hfs : BlobCacher.fetchAndStore H env img k (BlobCacher.setPulling k w)
        with ⟨_ | e1, w1⟩
      · rw [cacheBlob_of_fetch_none H env img k w w1 hfs] at hres
        rw [← (Prod.mk.inj hres).2]
        exact setStatus_verified H k k _ w1 (fetchAndStore_none_verified H env img k _ w1 hfs)
      · rw [cacheBlob_of_fetch_some H env img k w w1 e1 hfs] at hres
        cases hres
    · have := cacheBlob_error_status H env img k w w' e hres
      rw [hres] at hk
      simp only at hk
      rw [this] at hk
      cases hk
  · have hold : w.cacher.pullStatus k = some pullStatusPulled := by
      rw [← cacheBlob_status_other H env img d k w hkd]; exact hk
    have hv : (BlobCacher.setPulling d w).verified H k :=
      setStatus_verified H d k _ w (hinv k hold)
    have hv1 := fetchAndStore_verified H env img d k _ hv
    rcases hfs : BlobCacher.fetchAndStore H env img d (BlobCacher.setPulling d w)
      with ⟨_ | e1, w1⟩
    · rw [cacheBlob_of_fetch_none H env img d w w1 hfs]
      rw [hfs] at hv1
      exact setStatus_verified H d k _ w1 hv1
    · rw [cacheBlob_of_fetch_some H env img d w w1 e1 hfs]
      rw [hfs] at hv1
      exact hv1

/-- A returning `cacheBlobIfNotYet` either changed nothing or ran `cacheBlob`. -/
theorem cacheBlobIfNotYet_cases (H : Hasher) (env : Env) (img : String) (d : Digest)
    (fuel : Nat) (w w' : World) (r : Option Error)
    (h : BlobCacher.cacheBlobIfNotYet H env img d fuel w = some (r, w')) :
    (r = none ∧ w' = w) ∨ (r, w') = BlobCacher.cacheBlob H env img d w := by
  cases fuel with
  | zero => simp [BlobCacher.cacheBlobIfNotYet] at h
  | succ n =>
    rcases hs : w.cacher.pullStatus d with _ | st
    · rw [cacheBlobIfNotYet_of_fresh H env img d w (Or.inl hs)] at h
      exact Or.inr (Option.some.inj h).symm
    · cases st
      · rw [cacheBlobIfNotYet_of_fresh H env img d w (Or.inr hs)] at h
        exact Or.inr (Option.some.inj h).symm
      · rw [cacheBlobIfNotYet_of_pulling H env img d w hs] at h
        simp at h
      · rw [cacheBlobIfNotYet_of_pulled H env img d w hs] at h
        obtain ⟨h1, h2⟩ := Prod.mk.inj (Option.some.inj h)
        exact Or.inl ⟨h1.symm, h2.symm⟩

theorem cacheBlobIfNotYet_invariant (H : Hasher) (env : Env) (img : String) (d : Digest)
    (fuel : Nat) (w w' : World) (r : Option Error)
    (h : BlobCacher.cacheBlobIfNotYet H env img d fuel w = some (r, w'))
    (hinv : ∀ k, w.cacher.pullStatus k = some pullStatusPulled → w.verified H k) :
    ∀ k, w'.cacher.pullStatus k = some pullStatusPulled → w'.verified H k := by
  rcases cacheBlobIfNotYet_cases H env img d fuel w w' r h with ⟨-, rfl⟩ | hcb
  · exact hinv
  · have := cacheBlob_invariant H env img d w hinv
    rw [← hcb] at this
    exact this

/-- The invariant holds in every world reachable through returning calls. -/
theorem reachable_invariant (H : Hasher) (w : World) (hr : Reachable H w) :
    ∀ k, w.cacher.pullStatus k = some pullStatusPulled → w.verified H k := by
  induction hr with
  | init blobs => intro k hk; simp [World.init] at hk
  | cacheBlobIfNotYet w env img d fuel r w' _ hcall ih =>
    exact cacheBlobIfNotYet_invariant H env img d fuel w w' r hcall ih
  | PullBlob w env img d fuel r w' _ hcall ih =>
    unfold BlobCacher.PullBlob at hcall
    rcases hc : BlobCacher.cacheBlobIfNotYet H env img d fuel w with _ | ⟨_ | e, w1⟩
    · rw [hc] at hcall; cases hcall
    · rw [hc] at hcall
      simp only at hcall
      obtain ⟨-, rfl⟩ := Prod.mk.inj (Option.some.inj hcall)
      exact cacheBlobIfNotYet_invariant H env img d fuel w w1 none hc ih
    · rw [hc] at hcall
      simp only at hcall
      obtain ⟨-, rfl⟩ := Prod.mk.inj (Option.some.inj hcall)
      exact cacheBlobIfNotYet_invariant H env img d fuel w w1 (some e) hc ih

end puller

namespace puller

open pullStatus

/-- No section of code removes a verified blob. -/
theorem next_verified (H : Hasher) (c : Caller) (w : World) (k : Digest)
    (hv : w.verified H k) : (c.next H w).1.verified H k := by
  rcases c with ⟨img, d, env, pc⟩
  cases pc with
  | check =>
    simp only [Caller.next]
    split
    · exact hv
    · split <;> exact hv
  | parked => exact hv
  | woken => exact hv
  | setPulling => exact hv
  | fetch =>
    have h := fetchAndStore_verified H env img d k w hv
    simp only [Caller.next]
    rcases hfs : BlobCacher.fetchAndStore H env img d w with ⟨_ | e, w1⟩
    · rw [hfs] at h; exact h
    · rw [hfs] at h; exact h
  | markPulled => exact hv
  | broadcast => exact hv
  | done r => exact hv

/-- A caller arrives at the `markPulled` section only from a fetch that returned `nil`, with
its blob verified. -/
theorem next_markPulled (H : Hasher) (c : Caller) (w : World)
    (h : (c.next H w).2.1 = PC.markPulled) :
    c.pc = PC.fetch ∧ (BlobCacher.fetchAndStore H c.env c.img c.d w).1 = none ∧
      (c.next H w).1.verified H c.d := by
  rcases c with ⟨img, d, env, pc⟩
  cases pc with
  | check =>
    simp only [Caller.next] at h
    split at h
    · cases h
    · split at h <;> cases h
  | parked => cases h
  | woken => cases h
  | setPulling => cases h
  | fetch =>
    rcases hfs : BlobCacher.fetchAndStore H env img d w with ⟨_ | e, w1⟩
    · refine ⟨rfl, ?_, ?_⟩
      · simp only [hfs]
      · simp only [Caller.next, hfs]
        exact fetchAndStore_none_verified H env img d w w1 hfs
    · simp only [Caller.next, hfs] at h
      cases h
  | markPulled => cases h
  | broadcast => cases h
  | done r => cases h

/-- Every step keeps the invariant of the machine. -/
theorem step_invariant (H : Hasher) (s : Sys) (i : Nat) (hinv : s.invariant H) :
    (Sys.step H s i).invariant H := by
  rcases hi : s.callers[i]? with _ | ci
  · rw [step_of_none H s i hi]; exact hinv
  · obtain ⟨h1, h2⟩ := hinv
    have hlt : i < s.callers.length := by
      rcases Nat.lt_or_ge i s.callers.length with hlt | hge
      · exact hlt
      · rw [List.getElem?_eq_none hge] at hi; cases hi
    refine ⟨?_, ?_⟩
    · intro k hk
      rw [step_world H s i ci hi] at hk ⊢
      rw [next_pullStatus] at hk
      by_cases c1 : ci.d = k ∧ ci.pc = PC.setPulling
      · rw [if_pos c1] at hk; cases hk
      · rw [if_neg c1] at hk
        by_cases c2 : ci.d = k ∧ ci.pc = PC.markPulled
        · have := h2 i ci hi c2.2
          rw [c2.1] at this
          exact next_verified H ci s.world k this
        · rw [if_neg c2] at hk
          exact next_verified H ci s.world k (h1 k hk)
    · intro j c' hj hpc
      rw [step_world H s i ci hi]
      -- the caller at `j` before the broadcast, if any, of this step
      have hset : ∃ c0, (s.callers.set i { ci with pc := (ci.next H s.world).2.1 })[j]? = some c0 ∧
          c0.d = c'.d ∧ c0.pc = PC.markPulled := by
        rw [step_callers H s i ci hi] at hj
        split at hj
        · unfold wakeAll at hj
          rw [List.getElem?_map] at hj
          rcases h0 : (s.callers.set i { ci with pc := (ci.next H s.world).2.1 })[j]? with _ | c0
          · rw [h0] at hj; cases hj
          · rw [h0] at hj
            simp only [Option.map_some'] at hj
            have hc := Option.some.inj hj
            refine ⟨c0, rfl, ?_, ?_⟩
            · rw [← hc]; split <;> rfl
            · rw [← hc] at hpc
              split at hpc
              · cases hpc
              · exact hpc
        · exact ⟨c', hj, rfl, hpc⟩
      obtain ⟨c0, h0, hd0, hp0⟩ := hset
      rw [← hd0]
      by_cases hij : i = j
      · subst hij
        rw [List.getElem?_set, if_pos rfl, if_pos hlt] at h0
        have hc := Option.some.inj h0
        rw [← hc] at hp0 ⊢
        exact (next_markPulled H ci s.world hp0).2.2
      · rw [List.getElem?_set_ne hij] at h0
        exact next_verified H ci s.world c0.d (h2 j c0 h0 hp0)

theorem run_invariant (H : Hasher) (sched : List Nat) :
    ∀ s : Sys, s.invariant H → (Sys.run H s sched).invariant H := by
  induction sched with
  | nil => intro s h; exact h
  | cons i rest ih => intro s h; exact ih (Sys.step H s i) (step_invariant H s i h)

/-- The invariant holds in every system reachable by concurrent callers. -/
theorem sys_reachable_invariant (H : Hasher) (s : Sys) (hr : s.Reachable H) :
    s.invariant H := by
  obtain ⟨blobs, callers, sched, hpc, rfl⟩ := hr
  apply run_invariant
  refine ⟨?_, ?_⟩
  · intro k hk; simp [World.init] at hk
  · intro j c hj hc
    have hmem : c ∈ callers := List.getElem?_mem hj
    rw [hpc c hmem] at hc
    cases hc

end puller

/-- C10 (pulled implies a verified blob). In every world reachable from the one built by
`NewBlobCacher` (empty status map, zero counters, any directory content) through returning
calls of `cacheBlobIfNotYet` and `PullBlob`, and in every system reachable by any number of
concurrent callers under any schedule, a digest `d` whose status is `pullStatusPulled` has a
blob stored under `d` whose content hashes to `d`. A `cacheBlob` that moves the status of a
digest `d` to `pullStatusPulled` is a `cacheBlob` of `d` that returned `nil` after the pull,
the writer creation, the copy and both closes succeeded and the digest computed over the
fetched bytes was equal to `d`, those bytes being what is stored under `d`; among concurrent
callers the `markPulled` section is entered only from a fetch that returned `nil`. -/
theorem C10_pulled_implies_verified (H : Hasher) :
    (∀ w : World, Reachable H w → ∀ d, w.cacher.pullStatus d = some pullStatus.pullStatusPulled →
      ∃ content, w.blobs d = some content ∧ computedDigest H d content = d) ∧
    (∀ s : Sys, s.Reachable H → ∀ d,
      s.world.cacher.pullStatus d = some pullStatus.pullStatusPulled →
      ∃ content, s.world.blobs d = some content ∧ computedDigest H d content = d) ∧
    (∀ (w : World) (env : Env) (img : String) (d2 d : Digest),
      w.cacher.pullStatus d ≠ some pullStatus.pullStatusPulled →
      (BlobCacher.cacheBlob H env img d2 w).2.cacher.pullStatus d
        = some pullStatus.pullStatusPulled →
      d2 = d ∧ (BlobCacher.cacheBlob H env img d2 w).1 = none ∧
        ∃ r, env.delivers r ∧ computedDigest H d r.data = d ∧
          (BlobCacher.cacheBlob H env img d2 w).2.blobs d = some r.data) ∧
    (∀ (c : Caller) (w : World), (c.next H w).2.1 = PC.markPulled →
      c.pc = PC.fetch ∧ (BlobCacher.fetchAndStore H c.env c.img c.d w).1 = none) := by
  refine ⟨?_, ?_, ?_, ?_⟩
  · intro w hr d hd
    exact reachable_invariant H w hr d hd
  · intro s hr d hd
    exact (sys_reachable_invariant H s hr).1 d hd
  · intro w env img d2 d hold hnew
    by_cases h2 : d = d2
    · subst h2
      rcases hres : BlobCacher.cacheBlob H env img d w with ⟨_ | e, w'⟩
      · obtain ⟨r, hr, hd, hw⟩ := cacheBlob_eq_none H env img d w w' hres
        refine ⟨rfl, rfl, r, hr, hd, ?_⟩
        rw [hw]
        simp [BlobCacher.markPulled, World.setStatus, World.counted, World.stored,
          image.Blobs.publish]
      · have := cacheBlob_error_status H env img d w w' e hres
        rw [hres] at hnew
        simp only at hnew
        rw [this] at hnew
        cases hnew
    · rw [cacheBlob_status_other H env img d2 d w h2] at hnew
      exact absurd hnew hold
  · intro c w h
    exact ⟨(next_markPulled H c w h).1, (next_markPulled H c w h).2.1⟩
